import Mathlib

/-!
# ghtrending: options, request URLs and row extraction

A shallow embedding of `option.go` and `trending.go`.

Go strings are embedded as Lean `String`s; the library routines the program
calls (`fmt.Sprintf`, `strings.*`, `strconv.Atoi`, the `goquery` selection
operations) are embedded as executable functions written after the behaviour
of the Go libraries.
-/

namespace ghtrending

/-! ## option.go -/

/-- The `options` struct of option.go. -/
structure options where
  GitHubURL : String
  SpokenLang : String
  Language : String
  DateRange : String
  deriving DecidableEq, Repr

/-- An `option` is a function that mutates an `options` value in place; the
mutation is embedded as a function from the old value to the new one. -/
abbrev option := options → options

/-- The map literal assigned to `spokenLangCode` in `init`, in source order. -/
def spokenLangCodeEntries : List (String × String) := [
  ("abkhazian", "ab"),
  ("afar", "aa"),
  ("afrikaans", "af"),
  ("akan", "ak"),
  ("albanian", "sq"),
  ("amharic", "am"),
  ("arabic", "ar"),
  ("aragonese", "an"),
  ("armenian", "hy"),
  ("assamese", "as"),
  ("avaric", "av"),
  ("avestan", "ae"),
  ("aymara", "ay"),
  ("azerbaijani", "az"),
  ("bambara", "bm"),
  ("bashkir", "ba"),
  ("basque", "eu"),
  ("belarusian", "be"),
  ("bengali", "bn"),
  ("bihari languages", "bh"),
  ("bislama", "bi"),
  ("bosnian", "bs"),
  ("breton", "br"),
  ("bulgarian", "bg"),
  ("burmese", "my"),
  ("catalan", "ca"),
  ("valencian", "ca"),
  ("chamorro", "ch"),
  ("chechen", "ce"),
  ("chichewa", "ny"),
  ("chewa", "ny"),
  ("nyanja", "ny"),
  ("chinese", "zh"),
  ("chuvash", "cv"),
  ("cornish", "kw"),
  ("corsican", "co"),
  ("cree", "cr"),
  ("croatian", "hr"),
  ("czech", "cs"),
  ("danish", "da"),
  ("divehi", "dv"),
  ("dhivehi", "dv"),
  ("maldivian", "dv"),
  ("dutch", "nl"),
  ("flemish", "nl"),
  ("dzongkha", "dz"),
  ("english", "en"),
  ("esperanto", "eo"),
  ("estonian", "et"),
  ("ewe", "ee"),
  ("faroese", "fo"),
  ("fijian", "fj"),
  ("finnish", "fi"),
  ("french", "fr"),
  ("fulah", "ff"),
  ("galician", "gl"),
  ("georgian", "ka"),
  ("german", "de"),
  ("greek", "el"),
  ("modern", "el"),
  ("guarani", "gn"),
  ("gujarati", "gu"),
  ("haitian", "ht"),
  ("haitian creole", "ht"),
  ("hausa", "ha"),
  ("hebrew", "he"),
  ("herero", "hz"),
  ("hindi", "hi"),
  ("hiri motu", "ho"),
  ("hungarian", "hu"),
  ("interlingua", "ia"),
  ("indonesian", "id"),
  ("interlingue", "ie"),
  ("occidental", "ie"),
  ("irish", "ga"),
  ("igbo", "ig"),
  ("inupiaq", "ik"),
  ("ido", "io"),
  ("icelandic", "is"),
  ("italian", "it"),
  ("inuktitut", "iu"),
  ("japanese", "ja"),
  ("javanese", "jv"),
  ("kalaallisut", "kl"),
  ("greenlandic", "kl"),
  ("kannada", "kn"),
  ("kanuri", "kr"),
  ("kashmiri", "ks"),
  ("kazakh", "kk"),
  ("central khmer", "km"),
  ("kikuyu", "ki"),
  ("gikuyu", "ki"),
  ("kinyarwanda", "rw"),
  ("kirghiz", "ky"),
  ("kyrgyz", "ky"),
  ("komi", "kv"),
  ("kongo", "kg"),
  ("korean", "ko"),
  ("kurdish", "ku"),
  ("kuanyama", "kj"),
  ("kwanyama", "kj"),
  ("latin", "la"),
  ("luxembourgish", "lb"),
  ("letzeburgesch", "lb"),
  ("ganda", "lg"),
  ("limburgan", "li"),
  ("limburger", "li"),
  ("limburgish", "li"),
  ("lingala", "ln"),
  ("lao", "lo"),
  ("lithuanian", "lt"),
  ("luba-katanga", "lu"),
  ("latvian", "lv"),
  ("manx", "gv"),
  ("macedonian", "mk"),
  ("malagasy", "mg"),
  ("malay", "ms"),
  ("malayalam", "ml"),
  ("maltese", "mt"),
  ("maori", "mi"),
  ("marathi", "mr"),
  ("marshallese", "mh"),
  ("mongolian", "mn"),
  ("nauru", "na"),
  ("navajo", "nv"),
  ("navaho", "nv"),
  ("north ndebele", "nd"),
  ("nepali", "ne"),
  ("ndonga", "ng"),
  ("norwegian bokmål", "nb"),
  ("norwegian nynorsk", "nn"),
  ("norwegian", "no"),
  ("sichuan yi", "ii"),
  ("nuosu", "ii"),
  ("south ndebele", "nr"),
  ("occitan", "oc"),
  ("ojibwa", "oj"),
  ("church slavic", "cu"),
  ("old slavonic", "cu"),
  ("chu...", "cu"),
  ("oromo", "om"),
  ("oriya", "or"),
  ("ossetian", "os"),
  ("ossetic", "os"),
  ("punjabi", "pa"),
  ("panjabi", "pa"),
  ("pali", "pi"),
  ("persian", "fa"),
  ("polish", "pl"),
  ("pashto", "ps"),
  ("pushto", "ps"),
  ("portuguese", "pt"),
  ("quechua", "qu"),
  ("romansh", "rm"),
  ("rundi", "rn"),
  ("romanian", "ro"),
  ("moldavian", "ro"),
  ("moldovan", "ro"),
  ("russian", "ru"),
  ("sanskrit", "sa"),
  ("sardinian", "sc"),
  ("sindhi", "sd"),
  ("northern sami", "se"),
  ("samoan", "sm"),
  ("sango", "sg"),
  ("serbian", "sr"),
  ("gaelic", "gd"),
  ("scottish gaelic", "gd"),
  ("shona", "sn"),
  ("sinhala", "si"),
  ("sinhalese", "si"),
  ("slovak", "sk"),
  ("slovenian", "sl"),
  ("somali", "so"),
  ("southern sotho", "st"),
  ("spanish", "es"),
  ("castilian", "es"),
  ("sundanese", "su"),
  ("swahili", "sw"),
  ("swati", "ss"),
  ("swedish", "sv"),
  ("tamil", "ta"),
  ("telugu", "te"),
  ("tajik", "tg"),
  ("thai", "th"),
  ("tigrinya", "ti"),
  ("tibetan", "bo"),
  ("turkmen", "tk"),
  ("tagalog", "tl"),
  ("tswana", "tn"),
  ("tonga (tonga islands)", "to"),
  ("turkish", "tr"),
  ("tsonga", "ts"),
  ("tatar", "tt"),
  ("twi", "tw"),
  ("tahitian", "ty"),
  ("uighur", "ug"),
  ("uyghur", "ug"),
  ("ukrainian", "uk"),
  ("urdu", "ur"),
  ("uzbek", "uz"),
  ("venda", "ve"),
  ("vietnamese", "vi"),
  ("volapük", "vo"),
  ("walloon", "wa"),
  ("welsh", "cy"),
  ("wolof", "wo"),
  ("western frisian", "fy"),
  ("xhosa", "xh"),
  ("yiddish", "yi"),
  ("yoruba", "yo"),
  ("zhuang", "za"),
  ("chuang", "za"),
  ("zulu", "zu")]

/-- Indexing a Go `map[string]string`: the value stored under the key, or the
zero value `""` when the key is absent. The keys of a map literal are pairwise
distinct (the compiler rejects duplicates), so the first entry found is the
entry. -/
def mapIndex : List (String × String) → String → String
  | [], _ => ""
  | (k, v) :: rest, key => if k = key then v else mapIndex rest key

/-- The package variable `spokenLangCode` after `init` has run. -/
def spokenLangCode (lang : String) : String :=
  mapIndex spokenLangCodeEntries lang

def WithDaily : option :=
  fun opt => { opt with DateRange := "daily" }

def WithWeekly : option :=
  fun opt => { opt with DateRange := "weekly" }

def WithMonthly : option :=
  fun opt => { opt with DateRange := "monthly" }

def WithDateRange (dr : String) : option :=
  fun opt => { opt with DateRange := dr }

def WithLanguage (lang : String) : option :=
  fun opt => { opt with Language := lang }

def WithSpokenLanguageCode (code : String) : option :=
  fun opt => { opt with SpokenLang := code }

def WithSpokenLanguageFull (lang : String) : option :=
  fun opt => { opt with SpokenLang := spokenLangCode lang }

def WithURL (url : String) : option :=
  fun opt => { opt with GitHubURL := url }

/-! ## trending.go: loadOptions -/

/-- The zero value of `options` with `GitHubURL` set, as in the composite
literal that opens `loadOptions`. -/
def defaultOptions : options :=
  { GitHubURL := "http://github.com", SpokenLang := "", Language := "", DateRange := "" }

/-- The `for _, option := range opts { option(&o) }` loop of `loadOptions`,
started from the value `o`. -/
def applyOptions : options → List option → options
  | o, [] => o
  | o, opt :: rest => applyOptions (opt o) rest

def loadOptions (opts : List option) : options :=
  applyOptions defaultOptions opts

/-! ## Go library routines used by trending.go

The routines below belong to the Go standard library (`fmt`, `unicode`,
`strings`, `strconv`). They are embedded after their library implementation,
on the code points of a string. -/

/-- The fragment of `fmt.Sprintf` that trending.go uses: the only verb is `%s`
and every operand is a string. An operand is copied as it is (it is not scanned
for verbs); a verb without operand prints `%!s(MISSING)`. -/
def sprintfChars : List Char → List String → List Char
  | [], _ => []
  | '%' :: 's' :: rest, a :: args => a.data ++ sprintfChars rest args
  | '%' :: 's' :: rest, [] => "%!s(MISSING)".data ++ sprintfChars rest []
  | c :: rest, args => c :: sprintfChars rest args

def Sprintf (format : String) (args : List String) : String :=
  String.mk (sprintfChars format.data args)

/-- `unicode.IsSpace`: the Latin-1 spaces, then the other code points with the
Unicode White_Space property. -/
def IsSpace (r : Char) : Bool :=
  let u := r.toNat
  if u ≤ 0xFF then
    u = 0x09 || u = 0x0A || u = 0x0B || u = 0x0C || u = 0x0D || u = 0x20 || u = 0x85 || u = 0xA0
  else
    u = 0x1680 || (0x2000 ≤ u && u ≤ 0x200A) || u = 0x2028 || u = 0x2029 || u = 0x202F
      || u = 0x205F || u = 0x3000

/-- `strings.TrimLeftFunc`. -/
def TrimLeftFunc (s : List Char) (f : Char → Bool) : List Char :=
  s.dropWhile f

/-- `strings.TrimRightFunc`. -/
def TrimRightFunc (s : List Char) (f : Char → Bool) : List Char :=
  (s.reverse.dropWhile f).reverse

/-- `strings.TrimFunc`: `TrimRightFunc(TrimLeftFunc(s, f), f)`. -/
def TrimFunc (s : List Char) (f : Char → Bool) : List Char :=
  TrimRightFunc (TrimLeftFunc s f) f

/-- `strings.TrimSpace`. -/
def TrimSpace (s : String) : String :=
  String.mk (TrimFunc s.data IsSpace)

/-- `strings.Trim(s, cutset)`. -/
def Trim (s cutset : String) : String :=
  String.mk (TrimFunc s.data (fun r => cutset.data.contains r))

/-- The scan of `strings.Replace(s, old, new, -1)` for a non-empty `old`: the
leftmost occurrences of `old` that do not overlap are replaced. The first
argument counts the characters of a matched occurrence still to be skipped. -/
def replaceChars (old new : List Char) : Nat → List Char → List Char
  | _, [] => []
  | skip + 1, _ :: rest => replaceChars old new skip rest
  | 0, c :: rest =>
    if old.isPrefixOf (c :: rest) then new ++ replaceChars old new (old.length - 1) rest
    else c :: replaceChars old new 0 rest

/-- `strings.Replace(s, old, new, -1)`, for a non-empty `old`. -/
def Replace (s old new : String) : String :=
  String.mk (replaceChars old.data new.data 0 s.data)

/-- The text before and after the first occurrence of a non-empty `sep`
(`strings.Index` and the two slices `genSplit` takes around it). -/
def cutChars (sep : List Char) : List Char → Option (List Char × List Char)
  | [] => none
  | c :: rest =>
    if sep.isPrefixOf (c :: rest) then some ([], (c :: rest).drop sep.length)
    else (cutChars sep rest).map (fun p => (c :: p.1, p.2))

/-- The loop of `strings.genSplit` for a non-empty `sep` and `n ≥ 0` pieces. -/
def splitNChars (sep : List Char) : Nat → List Char → List (List Char)
  | 0, _ => []
  | 1, s => [s]
  | n + 2, s =>
    match cutChars sep s with
    | none => [s]
    | some (before, after) => before :: splitNChars sep (n + 1) after

/-- `strings.SplitN(s, sep, n)`, for a non-empty `sep` and `n ≥ 0`. -/
def SplitN (s sep : String) (n : Nat) : List String :=
  (splitNChars sep.data n s.data).map String.mk

/-- The two sentinel errors a `*strconv.NumError` wraps. -/
inductive NumError where
  | ErrSyntax
  | ErrRange
  deriving DecidableEq, Repr

/-- The digit loop of `strconv.ParseUint(s, 10, bitSize)`, with `n` the `uint64`
accumulator and `maxVal = 1<<bitSize - 1`. A character that is not a decimal
digit is a syntax error (a letter is a digit of value 10 or more, which base 10
rejects; the bytes of a code point outside ASCII are no digits). -/
def parseUintLoop (maxVal : Nat) : Nat → List Char → Nat × Option NumError
  | n, [] => (n, none)
  | n, c :: rest =>
    if '0'.toNat ≤ c.toNat ∧ c.toNat ≤ '9'.toNat then
      let d := c.toNat - '0'.toNat
      if n ≥ (2 ^ 64 - 1) / 10 + 1 then
        -- n*base overflows
        (maxVal, some NumError.ErrRange)
      else
        let n10 := (n * 10) % 2 ^ 64
        let n1 := (n10 + d) % 2 ^ 64
        if n1 < n10 ∨ n1 > maxVal then
          -- n+d overflows
          (maxVal, some NumError.ErrRange)
        else
          parseUintLoop maxVal n1 rest
    else
      (0, some NumError.ErrSyntax)

/-- `strconv.ParseUint(s, 10, 0)` where `strconv.IntSize` is `intSize`. -/
def ParseUint (intSize : Nat) (s : List Char) : Nat × Option NumError :=
  if s = [] then (0, some NumError.ErrSyntax)
  else parseUintLoop (2 ^ intSize - 1) 0 s

/-- `strconv.ParseInt(s, 10, 0)` where `strconv.IntSize` is `intSize`. -/
def ParseInt (intSize : Nat) (s : List Char) : Int × Option NumError :=
  if s = [] then (0, some NumError.ErrSyntax)
  else
    -- Pick off leading sign.
    let neg : Bool := s.head? = some '-'
    let s1 := if s.head? = some '+' ∨ s.head? = some '-' then s.tail else s
    -- Convert unsigned and check range.
    let (un, err) := ParseUint intSize s1
    if err = some NumError.ErrSyntax then (0, err)
    else
      let cutoff : Nat := 2 ^ (intSize - 1)
      if !neg ∧ un ≥ cutoff then ((cutoff : Int) - 1, some NumError.ErrRange)
      else if neg ∧ un > cutoff then (-(cutoff : Int), some NumError.ErrRange)
      else (if neg then -(un : Int) else (un : Int), none)

/-- The conversion `int(i64)` of an `int64` to an `int` of `intSize` bits. -/
def toInt (intSize : Nat) (v : Int) : Int :=
  (v + 2 ^ (intSize - 1)) % 2 ^ intSize - 2 ^ (intSize - 1)

/-- `strconv.Atoi`: "equivalent to ParseInt(s, 10, 0), converted to type int".
The value is returned next to the error, and it is what a caller that discards
the error keeps. -/
def Atoi (intSize : Nat) (s : String) : Int × Option NumError :=
  let (i64, err) := ParseInt intSize s.data
  (toInt intSize i64, err)

/-! ## The parsed document (`golang.org/x/net/html`) -/

inductive NodeType where
  | ErrorNode | TextNode | DocumentNode | ElementNode | CommentNode | DoctypeNode | RawNode
  deriving DecidableEq, Repr

/-- An `html.Attribute` (without its namespace). -/
structure Attribute where
  Key : String
  Val : String
  deriving DecidableEq, Repr

/-- An `html.Node` with the subtree below it: the `FirstChild`/`NextSibling`
chain is the list `children`. -/
inductive Node where
  | mk (Typ : NodeType) (Data : String) (Attr : List Attribute) (children : List Node)

def Node.Typ : Node → NodeType
  | .mk t _ _ _ => t

def Node.Data : Node → String
  | .mk _ d _ _ => d

def Node.Attr : Node → List Attribute
  | .mk _ _ a _ => a

def Node.children : Node → List Node
  | .mk _ _ _ cs => cs

/-- A `*html.Node`: a node at its place in a document. `path` lists the child
indices that lead from the root to the node and stands for the identity of the
pointer; `ancestors` is the `Parent` chain, nearest first. -/
structure NodeRef where
  path : List Nat
  ancestors : List Node
  node : Node

/-! ## Selectors (`github.com/andybalholm/cascadia`) -/

/-- The compiled form of the selectors trending.go uses: a tag name, a class
name, and the descendant and child combinators. -/
inductive Selector where
  | tag (name : String)
  | cls (name : String)
  | descendant (first second : Selector)
  | child (first second : Selector)

/-- Every node of a `Parent` chain with the chain above it. -/
def parentChain : List Node → List (Node × List Node)
  | [] => []
  | p :: ps => (p, ps) :: parentChain ps

/-- `matchInclude`: `val` is one of the whitespace-separated words of `s`. -/
def matchInclude (val : String) (s : String) : Bool :=
  (s.data.splitOnP
    (fun c => c = ' ' || c = '\t' || c = '\r' || c = '\n' || c = '\x0c')).contains val.data

/-- `Match` of a compiled selector on a node, given its `Parent` chain. -/
def Selector.Match : Selector → Node → List Node → Bool
  | .tag name, n, _ => n.Typ = NodeType.ElementNode && n.Data = name
  | .cls name, n, _ =>
    n.Typ = NodeType.ElementNode &&
      n.Attr.any (fun a => a.Key = "class" && matchInclude name a.Val)
  | .descendant first second, n, anc =>
    second.Match n anc && (parentChain anc).any (fun p => first.Match p.1 p.2)
  | .child first second, n, anc =>
    second.Match n anc &&
      (match anc with
       | [] => false
       | p :: ps => first.Match p ps)

mutual
/-- `matchAllInto`: the nodes of the subtree at `n` that the selector matches,
`n` included, in document order. -/
def matchAllInto (m : Selector) (path : List Nat) (anc : List Node) : Node → List NodeRef
  | .mk t d a cs =>
    (if m.Match (.mk t d a cs) anc then [⟨path, anc, .mk t d a cs⟩] else [])
      ++ matchAllChildren m path (.mk t d a cs :: anc) 0 cs
/-- The loop of `matchAllInto` over the children, from child number `i` on. -/
def matchAllChildren (m : Selector) (path : List Nat) (anc : List Node) (i : Nat) :
    List Node → List NodeRef
  | [] => []
  | c :: cs => matchAllInto m (path ++ [i]) anc c ++ matchAllChildren m path anc (i + 1) cs
end

def MatchAll (m : Selector) (r : NodeRef) : List NodeRef :=
  matchAllInto m r.path r.ancestors r.node

mutual
/-- The text of a node and its descendants (the closure in `Selection.Text`). -/
def nodeText : Node → List Char
  | .mk t d _ cs => (if t = NodeType.TextNode then d.data else []) ++ nodesText cs
def nodesText : List Node → List Char
  | [] => []
  | c :: cs => nodeText c ++ nodesText cs
end

/-! ## Selections (`github.com/PuerkitoBio/goquery`) -/

/-- The `Nodes` of a `*goquery.Selection`. -/
abbrev Selection := List NodeRef

/-- The children of a node, as pointers. -/
def childRefs (r : NodeRef) : List NodeRef :=
  r.node.children.enum.map (fun p => ⟨r.path ++ [p.1], r.node :: r.ancestors, p.2⟩)

/-- `appendWithoutDuplicates`: a node already in the target is not added. -/
def appendWithoutDuplicates (target nodes : List NodeRef) : List NodeRef :=
  nodes.foldl (fun acc n => if acc.any (fun m => m.path = n.path) then acc else acc ++ [n]) target

def mapNodes (nodes : List NodeRef) (f : NodeRef → List NodeRef) : List NodeRef :=
  nodes.foldl (fun result n => appendWithoutDuplicates result (f n)) []

/-- `Selection.Find` with a compiled selector (`findWithMatcher`): the matches
among the descendants of every node of the selection. -/
def Selection.Find (s : Selection) (m : Selector) : Selection :=
  mapNodes s (fun n =>
    ((childRefs n).filter (fun c => c.node.Typ = NodeType.ElementNode)).flatMap (MatchAll m))

def Selection.Contents (s : Selection) : Selection :=
  mapNodes s childRefs

def Selection.Children (s : Selection) : Selection :=
  mapNodes s (fun n => (childRefs n).filter (fun c => c.node.Typ = NodeType.ElementNode))

def Selection.Size (s : Selection) : Int :=
  s.length

def Selection.Eq (s : Selection) (index : Int) : Selection :=
  let index := if index < 0 then index + s.length else index
  if index ≥ s.length ∨ index < 0 then []
  else (s.drop index.toNat).take 1

def Selection.Last (s : Selection) : Selection :=
  s.Eq (-1)

def Selection.Text (s : Selection) : String :=
  String.mk (s.flatMap (fun r => nodeText r.node))

def getAttributeValue (attrName : String) : List Attribute → String × Bool
  | [] => ("", false)
  | a :: rest => if a.Key = attrName then (a.Val, true) else getAttributeValue attrName rest

def Selection.Attr (s : Selection) (attrName : String) : String × Bool :=
  match s with
  | [] => ("", false)
  | n :: _ => getAttributeValue attrName n.node.Attr

/-- The loop of `Selection.Each`: the callback gets the index and the
selection of the one node; `st` is the state of the variables it captures. -/
def eachLoop {σ : Type} (f : Nat → Selection → σ → σ) : Nat → List NodeRef → σ → σ
  | _, [], st => st
  | i, n :: rest, st => eachLoop f (i + 1) rest (f i [n] st)

def Selection.Each {σ : Type} (s : Selection) (f : Nat → Selection → σ → σ) (st : σ) : σ :=
  eachLoop f 0 s st

/-! ## trending.go -/

structure Repository where
  Author : String
  Name : String
  Link : String
  Desc : String
  Lang : String
  Stars : Int
  Forks : Int
  Add : Int
  BuiltBy : List String
  deriving DecidableEq, Repr

structure Developer where
  Name : String
  Username : String
  PopularRepo : String
  Desc : String
  deriving DecidableEq, Repr

structure trending where
  opts : options
  deriving DecidableEq, Repr

def New (opts : List option) : trending :=
  { opts := loadOptions opts }

/-- A Go `error` value, as returned by `http.Get` and by the document reader. -/
structure Error where
  msg : String
  deriving DecidableEq, Repr

/-- What a fetch consults outside the program: `Get` is `http.Get` (the body of
the response, or the error), `NewDocumentFromReader` is
`goquery.NewDocumentFromReader` on that body (the root of the parsed document,
or the error), and `IntSize` is the bit size of `int` on the platform. -/
structure World where
  IntSize : Nat
  Get : String → Except Error String
  NewDocumentFromReader : String → Except Error Node

/-- What a fetch does and returns: the URLs handed to `http.Get`, in order,
and the pair `(list, err)` it returns, with `none` for `nil`. -/
structure Fetched (α : Type) where
  requests : List String
  list : Option (List α)
  err : Option Error

/-- The root selection of a `goquery.Document`. -/
def documentSelection (doc : Node) : Selection :=
  [{ path := [], ancestors := [], node := doc }]

/-- Selector `.Box .Box-row`. -/
def selBoxRow : Selector := .descendant (.cls "Box") (.cls "Box-row")

/-- Selector `h1 a`. -/
def selH1A : Selector := .descendant (.tag "h1") (.tag "a")

/-- Selector `span`. -/
def selSpan : Selector := .tag "span"

/-- Selector `p`. -/
def selP : Selector := .tag "p"

/-- Selector `div>span`. -/
def selDivSpan : Selector := .child (.tag "div") (.tag "span")

/-- Selector `a>img`. -/
def selAImg : Selector := .child (.tag "a") (.tag "img")

/-- Selector `div>a`. -/
def selDivA : Selector := .child (.tag "div") (.tag "a")

/-- Selector `div>div>h1>a`. -/
def selDevName : Selector := .child (.child (.child (.tag "div") (.tag "div")) (.tag "h1")) (.tag "a")

/-- Selector `div>div>p>a`. -/
def selDevUsername : Selector :=
  .child (.child (.child (.tag "div") (.tag "div")) (.tag "p")) (.tag "a")

/-- Selector `div>div>article>h1>a`. -/
def selDevRepo : Selector :=
  .child (.child (.child (.child (.tag "div") (.tag "div")) (.tag "article")) (.tag "h1")) (.tag "a")

/-- Selector `div>div>article`. -/
def selDevArticle : Selector := .child (.child (.tag "div") (.tag "div")) (.tag "article")

/-- The body of the callback FetchRepos passes to `Each`, up to the append:
the repository built from the row selection `s`. `addParts[0]` is the head of
`addParts`, which `SplitN` never returns empty. -/
def repoOfRow (intSize : Nat) (opts : options) (s : Selection) : Repository :=
  -- author name link
  let titleSel := s.Find selH1A
  let author := Trim (titleSel.Find selSpan).Text "/\n "
  let name := TrimSpace titleSel.Contents.Last.Text
  let relativeLink := (titleSel.Attr "href").1
  let link := if relativeLink.utf8ByteSize > 0 then opts.GitHubURL ++ relativeLink else ""
  -- desc
  let desc := TrimSpace (s.Find selP).Text
  let spanSel := s.Find selDivSpan
  let (langIdx, addIdx, builtByIdx) : Int × Int × Int :=
    if spanSel.Size = 2 then
      -- language not exist
      (-1, 1, 0)
    else
      (0, 2, 1)
  -- language
  let lang := if langIdx ≥ 0 then TrimSpace (spanSel.Eq langIdx).Text else "unknown"
  -- add
  let addParts := SplitN (TrimSpace (spanSel.Eq addIdx).Text) " " 2
  let add := (Atoi intSize (addParts.headD "")).1
  -- builtby
  let builtBy := ((spanSel.Eq builtByIdx).Find selAImg).Each
    (fun _ img builtBy => builtBy ++ [(img.Attr "src").1]) []
  -- stars forks
  let aSel := s.Find selDivA
  let starStr := TrimSpace (aSel.Eq (-2)).Text
  let star := (Atoi intSize (Replace starStr "," "")).1
  let forkStr := TrimSpace (aSel.Eq (-1)).Text
  let fork := (Atoi intSize (Replace forkStr "," "")).1
  { Author := author, Name := name, Link := link, Desc := desc, Lang := lang,
    Stars := star, Forks := fork, Add := add, BuiltBy := builtBy }

/-- The argument of `http.Get` in FetchRepos. -/
def reposURL (opts : options) : String :=
  Sprintf "%s/trending/%s?spoken_language_code=%s&since=%s"
    [opts.GitHubURL, opts.Language, opts.SpokenLang, opts.DateRange]

/-- FetchRepos fetch all repositories from GitHub trending. -/
def FetchRepos (w : World) (t : trending) : Fetched Repository :=
  let url := reposURL t.opts
  match w.Get url with
  | .error err => { requests := [url], list := none, err := some err }
  | .ok body =>
    match w.NewDocumentFromReader body with
    | .error err => { requests := [url], list := none, err := some err }
    | .ok doc =>
      let repos := ((documentSelection doc).Find selBoxRow).Each
        (fun _ s repos => repos ++ [repoOfRow w.IntSize t.opts s]) []
      { requests := [url], list := some repos, err := none }

/-- The body of the callback FetchDevelopers passes to `Each`, up to the
append: the developer built from the row selection `s`. -/
def developerOfRow (s : Selection) : Developer :=
  -- name username
  let name := TrimSpace (s.Last.Find selDevName).Text
  let username := TrimSpace (s.Last.Find selDevUsername).Text
  -- popular repo
  let popularRepo := TrimSpace (s.Last.Find selDevRepo).Text
  let desc := TrimSpace (s.Last.Find selDevArticle).Children.Last.Text
  { Name := name, Username := username, PopularRepo := popularRepo, Desc := desc }

/-- The argument of `http.Get` in FetchDevelopers. -/
def developersURL (opts : options) : String :=
  Sprintf "%s/trending/developers?lanugage=%s&since=%s"
    [opts.GitHubURL, opts.Language, opts.DateRange]

/-- FetchDevelopers fetch all developers from GitHub trending. -/
def FetchDevelopers (w : World) (t : trending) : Fetched Developer :=
  let url := developersURL t.opts
  match w.Get url with
  | .error err => { requests := [url], list := none, err := some err }
  | .ok body =>
    match w.NewDocumentFromReader body with
    | .error err => { requests := [url], list := none, err := some err }
    | .ok doc =>
      let developers := ((documentSelection doc).Find selBoxRow).Each
        (fun _ s developers => developers ++ [developerOfRow s]) []
      { requests := [url], list := some developers, err := none }

def TrendingRepositories (w : World) (opts : List option) : Fetched Repository :=
  FetchRepos w (New opts)

def TrendingDevelopers (w : World) (opts : List option) : Fetched Developer :=
  FetchDevelopers w (New opts)

/-! ## Vocabulary of the statements -/

/-- A two-letter lowercase ASCII code. -/
def isTwoLetterCode (s : String) : Bool :=
  match s.data with
  | [a, b] => decide ('a'.toNat ≤ a.toNat) && decide (a.toNat ≤ 'z'.toNat) &&
      decide ('a'.toNat ≤ b.toNat) && decide (b.toNat ≤ 'z'.toNat)
  | _ => false

/-- A decimal digit. -/
def isDecimalDigit (c : Char) : Bool :=
  decide ('0'.toNat ≤ c.toNat) && decide (c.toNat ≤ '9'.toNat)

/-- The number a string of decimal digits denotes, continuing from `n`. -/
def decimalFrom : Nat → List Char → Nat
  | n, [] => n
  | n, c :: rest => decimalFrom (10 * n + (c.toNat - '0'.toNat)) rest

/-- The natural number a string of decimal digits denotes. -/
def decimalValue (ds : List Char) : Nat :=
  decimalFrom 0 ds

/-- A numeral in decimal, with or without separator commas: digits and commas
only, and at least one digit. -/
def isNumeral (t : List Char) : Bool :=
  t.all (fun c => isDecimalDigit c || c = ',') && t.any isDecimalDigit

/-- The natural number a numeral denotes: the value of its digits. -/
def numeralValue (t : List Char) : Nat :=
  decimalValue (t.filter isDecimalDigit)

/-- White space only. -/
def isBlank (t : List Char) : Bool :=
  t.all IsSpace

/-- The text after an optional leading sign. -/
def unsignedPart : List Char → List Char
  | [] => []
  | c :: rest => if c = '+' ∨ c = '-' then rest else c :: rest

/-- A text that is no decimal integer, and is seen not to be one before its
digits leave the range of an unsigned integer of `intSize` bits: after the
optional sign there is nothing, or there are digits of value at most
`2 ^ intSize - 1` followed by a character that is no digit. -/
def isMalformed (intSize : Nat) (s : List Char) : Prop :=
  unsignedPart s = [] ∨
    ∃ ds c rest, unsignedPart s = ds ++ c :: rest ∧ (∀ d ∈ ds, isDecimalDigit d = true) ∧
      isDecimalDigit c = false ∧ decimalValue ds ≤ 2 ^ intSize - 1

/-- The text of an element and its descendants; the empty string when there is
no element. -/
def textOf (e : Option NodeRef) : String :=
  match e with
  | none => ""
  | some r => String.mk (nodeText r.node)

/-- The second-to-last element of a list. -/
def secondToLast {α : Type} (l : List α) : Option α :=
  l.reverse[1]?

/-- The last element of a list. -/
def lastOf {α : Type} (l : List α) : Option α :=
  l.reverse[0]?

/-- A text with the surrounding white space trimmed and every comma removed. -/
def countText (t : String) : String :=
  String.mk ((TrimSpace t).data.filter (fun c => c != ','))

/-- The head of a trimmed text, up to its first space. -/
def firstField (t : String) : String :=
  String.mk ((TrimSpace t).data.takeWhile (fun c => c != ' '))

/-- The count at the head of a text, as the program reads it. -/
def addCount (intSize : Nat) (t : String) : Int :=
  (Atoi intSize (firstField t)).1

/-- The `src` attributes of the `a>img` elements under an element, in document
order (the empty string for an image without `src`). -/
def imageSources (span : Option NodeRef) : List String :=
  (Selection.Find span.toList selAImg).map (fun img => (getAttributeValue "src" img.node.Attr).1)

/-- The span the count of the day is read from: index 1 of two spans, index 2
otherwise. -/
def addSpan (row : NodeRef) : Option NodeRef :=
  (Selection.Find [row] selDivSpan)[if (Selection.Find [row] selDivSpan).length = 2 then 1 else 2]?

/-- The text Stars is parsed from. -/
def starsSource (row : NodeRef) : String :=
  countText (textOf (secondToLast (Selection.Find [row] selDivA)))

/-- The text Forks is parsed from. -/
def forksSource (row : NodeRef) : String :=
  countText (textOf (lastOf (Selection.Find [row] selDivA)))

/-- The text Add is parsed from. -/
def addSource (row : NodeRef) : String :=
  firstField (textOf (addSpan row))

/-- A string of decimal digits whose value does not fit in an `int` of
`intSize` bits. -/
def isOverflowing (intSize : Nat) (s : List Char) : Prop :=
  s ≠ [] ∧ (∀ d ∈ s, isDecimalDigit d = true) ∧ 2 ^ (intSize - 1) ≤ decimalValue s

mutual
/-- The nodes of the subtree at a node, the node first, in document order. -/
def subtreeRefs (path : List Nat) (anc : List Node) : Node → List NodeRef
  | .mk t d a cs =>
    ⟨path, anc, .mk t d a cs⟩ :: childrenRefs path (.mk t d a cs :: anc) 0 cs
/-- The nodes of the subtrees at the children of a node, from child `i` on. -/
def childrenRefs (path : List Nat) (anc : List Node) (i : Nat) : List Node → List NodeRef
  | [] => []
  | c :: cs => subtreeRefs (path ++ [i]) anc c ++ childrenRefs path anc (i + 1) cs
end

/-- The descendants of the root of a document that lie in the subtree of an
element child of the root, in document order. -/
def documentDescendants (doc : Node) : List NodeRef :=
  ((childRefs { path := [], ancestors := [], node := doc }).filter
    (fun c => c.node.Typ = NodeType.ElementNode)).flatMap
    (fun c => subtreeRefs c.path c.ancestors c.node)

/-- Document order on the places of two nodes: an ancestor comes before its
descendants, and an earlier sibling's subtree before a later sibling's. -/
def docBefore : List Nat → List Nat → Bool
  | [], [] => false
  | [], _ :: _ => true
  | _ :: _, [] => false
  | a :: p, b :: q => decide (a < b) || (decide (a = b) && docBefore p q)

/-- A decimal integer: an optional sign followed by one or more decimal digits. -/
def isDecimalInteger (s : List Char) : Bool :=
  !(unsignedPart s).isEmpty && (unsignedPart s).all isDecimalDigit

/-- The four fields of `options`. -/
inductive Field where
  | GitHubURL | SpokenLang | Language | DateRange
  deriving DecidableEq, Repr

/-- The value of a field of an `options` value. -/
def options.get (o : options) : Field → String
  | .GitHubURL => o.GitHubURL
  | .SpokenLang => o.SpokenLang
  | .Language => o.Language
  | .DateRange => o.DateRange

/-- A call of one of the exported option constructors. -/
inductive Setting where
  | daily
  | weekly
  | monthly
  | dateRange (dr : String)
  | language (lang : String)
  | spokenLanguageCode (code : String)
  | spokenLanguageFull (lang : String)
  | url (u : String)

/-- The option a call of a constructor returns. -/
def Setting.toOption : Setting → option
  | .daily => WithDaily
  | .weekly => WithWeekly
  | .monthly => WithMonthly
  | .dateRange dr => WithDateRange dr
  | .language lang => WithLanguage lang
  | .spokenLanguageCode code => WithSpokenLanguageCode code
  | .spokenLanguageFull lang => WithSpokenLanguageFull lang
  | .url u => WithURL u

/-- The field an option is meant to set, and the value it is meant to give it. -/
def Setting.assigns : Setting → Field × String
  | .daily => (.DateRange, "daily")
  | .weekly => (.DateRange, "weekly")
  | .monthly => (.DateRange, "monthly")
  | .dateRange dr => (.DateRange, dr)
  | .language lang => (.Language, lang)
  | .spokenLanguageCode code => (.SpokenLang, code)
  | .spokenLanguageFull lang => (.SpokenLang, spokenLangCode lang)
  | .url u => (.GitHubURL, u)

/-- The value the last option of a list that sets the field gives it; the
default when no option of the list sets it. -/
def lastAssigned (f : Field) : List Setting → String
  | [] => defaultOptions.get f
  | s :: rest =>
    if rest.any (fun r => decide (r.assigns.1 = f)) then lastAssigned f rest
    else if s.assigns.1 = f then s.assigns.2
    else defaultOptions.get f

/-! ## Example documents -/

/-- An element node. -/
def elem (tag : String) (attr : List Attribute) (children : List Node) : Node :=
  .mk .ElementNode tag attr children

/-- A text node. -/
def textNode (data : String) : Node :=
  .mk .TextNode data [] []

/-- A row of the repository listing with a language span, two contributors,
star and fork links and the count of the day. -/
def exampleRow : Node :=
  elem "article" [⟨"class", "Box-row"⟩] [
    elem "h1" [] [
      elem "a" [⟨"href", "/darjun/ghtrending"⟩] [
        elem "span" [] [textNode "\n darjun /\n"], textNode "\n ghtrending\n"]],
    elem "p" [] [textNode "\n  a trending scraper \n"],
    elem "div" [] [
      elem "span" [] [elem "span" [] [], elem "span" [] [textNode "Go"]],
      elem "a" [] [textNode " 12,345\n"],
      elem "a" [] [textNode " 678\n"],
      elem "span" [] [textNode "Built by",
        elem "a" [] [elem "img" [⟨"src", "u1.png"⟩] []],
        elem "a" [] [elem "img" [⟨"src", "u2.png"⟩] []]],
      elem "span" [] [textNode "\n 321 stars today\n"]]]

/-- A row without language span: two spans under the div. -/
def exampleRowNoLang : Node :=
  elem "article" [⟨"class", "Box-row"⟩] [
    elem "h1" [] [elem "a" [⟨"href", "/a/b"⟩] [elem "span" [] [textNode "a /"], textNode " b"]],
    elem "div" [] [
      elem "a" [] [textNode "5"],
      elem "a" [] [textNode "3"],
      elem "span" [] [elem "a" [] [elem "img" [⟨"src", "u3.png"⟩] []]],
      elem "span" [] [textNode "2 stars today"]]]

/-- A row with nothing in it. -/
def exampleRowEmpty : Node :=
  elem "article" [⟨"class", "Box-row"⟩] []

/-- A document with a box of three rows. -/
def exampleDocument : Node :=
  .mk .DocumentNode "" [] [
    elem "html" [] [
      elem "head" [] [],
      elem "body" [] [
        elem "div" [⟨"class", "Box"⟩] [exampleRow, exampleRowNoLang, exampleRowEmpty]]]]

/-- A document without rows. -/
def exampleDocumentNoRows : Node :=
  .mk .DocumentNode "" [] [elem "html" [] [elem "head" [] [], elem "body" [] []]]

/-- A 64-bit platform where every request is answered with the example document. -/
def exampleWorld : World :=
  { IntSize := 64
    Get := fun _ => .ok "<html>"
    NewDocumentFromReader := fun _ => .ok exampleDocument }

/-- A platform where every request fails. -/
def offlineWorld : World :=
  { IntSize := 64
    Get := fun _ => .error ⟨"no such host"⟩
    NewDocumentFromReader := fun _ => .ok exampleDocument }

/-- A platform where the body of every response fails to be read. -/
def brokenBodyWorld : World :=
  { IntSize := 64
    Get := fun _ => .ok ""
    NewDocumentFromReader := fun _ => .error ⟨"unexpected EOF"⟩ }

/-- A single node as a pointer without ancestors. -/
def rootRef (n : Node) : NodeRef :=
  { path := [], ancestors := [], node := n }

/-- A row whose counts are written with separator commas: 1,234 stars and
"1,234 stars today". -/
def exampleRowThousand : Node :=
  elem "article" [⟨"class", "Box-row"⟩] [
    elem "div" [] [
      elem "span" [] [textNode "Go"],
      elem "a" [] [textNode "\n 1,234\n"],
      elem "a" [] [textNode "\n 56\n"],
      elem "span" [] [textNode "Built by"],
      elem "span" [] [textNode "\n 1,234 stars today\n"]]]

/-- A row whose star count is 2^63 and whose fork count is 10^20 - 1. -/
def exampleRowHuge : Node :=
  elem "article" [⟨"class", "Box-row"⟩] [
    elem "div" [] [
      elem "a" [] [textNode " 9,223,372,036,854,775,808\n"],
      elem "a" [] [textNode "99999999999999999999"]]]

/-- A row whose star count is abbreviated and whose fork link is empty. -/
def exampleRowAbbreviated : Node :=
  elem "article" [⟨"class", "Box-row"⟩] [
    elem "div" [] [
      elem "span" [] [textNode "Go"],
      elem "a" [] [textNode " 1.2k "],
      elem "a" [] [],
      elem "span" [] [],
      elem "span" [] [textNode "many stars today"]]]

/-- A row whose star count reads 2^64 with a plus sign after it. -/
def exampleRowHugePlus : Node :=
  elem "article" [⟨"class", "Box-row"⟩] [
    elem "div" [] [
      elem "a" [] [textNode " 18,446,744,073,709,551,616+ "],
      elem "a" [] [textNode "1"]]]

/-! ## Options: loadOptions and the spoken-language table -/

theorem applyOptions_eq_foldl (opts : List option) (o : options) :
    applyOptions o opts = opts.foldl (fun acc f => f acc) o := by
  induction opts generalizing o with
  | nil => rfl
  | cons f rest ih => simp [applyOptions, ih]

theorem applyOptions_append (xs ys : List option) (o : options) :
    applyOptions o (xs ++ ys) = applyOptions (applyOptions o xs) ys := by
  induction xs generalizing o with
  | nil => rfl
  | cons f rest ih => simp [applyOptions, ih]

theorem mapIndex_mem_or_empty (l : List (String × String)) (k : String) :
    mapIndex l k = "" ∨ (k, mapIndex l k) ∈ l := by
  induction l with
  | nil => left; rfl
  | cons p rest ih =>
    obtain ⟨a, b⟩ := p
    by_cases h : a = k
    · right; simp [mapIndex, h]
    · rcases ih with ih | ih
      · left; simp [mapIndex, h, ih]
      · right; simp [mapIndex, h, ih]

theorem mapIndex_absent (l : List (String × String)) (k : String)
    (h : ∀ v, (k, v) ∉ l) : mapIndex l k = "" := by
  induction l with
  | nil => rfl
  | cons p rest ih =>
    obtain ⟨a, b⟩ := p
    have hne : a ≠ k := by
      intro e
      exact h b (by simp [e])
    have hrest : ∀ v, (k, v) ∉ rest := fun v hv => h v (List.mem_cons_of_mem _ hv)
    simp [mapIndex, hne, ih hrest]

set_option maxRecDepth 100000 in
theorem spokenLangCodeEntries_values :
    spokenLangCodeEntries.all (fun p => isTwoLetterCode p.2) = true := by decide

set_option maxRecDepth 100000 in
set_option maxHeartbeats 4000000 in
theorem spokenLangCodeEntries_lookup :
    spokenLangCodeEntries.all (fun p => mapIndex spokenLangCodeEntries p.1 == p.2) = true := by
  decide

theorem spokenLangCode_of_mem (lang code : String) (h : (lang, code) ∈ spokenLangCodeEntries) :
    spokenLangCode lang = code := by
  have h1 := List.all_eq_true.mp spokenLangCodeEntries_lookup (lang, code) h
  simpa [spokenLangCode] using h1

theorem spokenLangCode_shape (lang : String) :
    spokenLangCode lang = "" ∨ isTwoLetterCode (spokenLangCode lang) = true := by
  rcases mapIndex_mem_or_empty spokenLangCodeEntries lang with h | h
  · left; exact h
  · right
    exact List.all_eq_true.mp spokenLangCodeEntries_values _ h

set_option maxRecDepth 100000 in
theorem spokenLangCode_Chinese : spokenLangCode "Chinese" = "" := by decide

set_option maxRecDepth 100000 in
theorem spokenLangCode_no_klingon :
    spokenLangCodeEntries.all (fun p => p.1 != "klingon") = true := by decide


theorem Setting_frame (s : Setting) (o : options) (f : Field) :
    (s.toOption o).get f = if s.assigns.1 = f then s.assigns.2 else o.get f := by
  cases s <;> cases f <;> rfl

theorem applyOptions_settings (ss : List Setting) (o : options) (f : Field) :
    (applyOptions o (ss.map Setting.toOption)).get f =
      if ss.any (fun r => decide (r.assigns.1 = f)) then lastAssigned f ss else o.get f := by
  induction ss generalizing o with
  | nil => simp [applyOptions]
  | cons s rest ih =>
    rw [List.map_cons, applyOptions, ih (s.toOption o), Setting_frame]
    by_cases hrest : rest.any (fun r => decide (r.assigns.1 = f)) = true
    · simp [lastAssigned, hrest]
    · by_cases hs : s.assigns.1 = f
      · simp [lastAssigned, hrest, hs]
      · simp [lastAssigned, hrest, hs]

theorem lastAssigned_none (f : Field) (ss : List Setting)
    (h : ss.any (fun r => decide (r.assigns.1 = f)) = false) :
    lastAssigned f ss = defaultOptions.get f := by
  cases ss with
  | nil => rfl
  | cons s rest =>
    rw [List.any_cons, Bool.or_eq_false_iff] at h
    have hs : ¬ s.assigns.1 = f := by simpa using h.1
    simp [lastAssigned, h.2, hs]

theorem loadOptions_settings (ss : List Setting) (f : Field) :
    (loadOptions (ss.map Setting.toOption)).get f = lastAssigned f ss := by
  unfold loadOptions
  rw [applyOptions_settings]
  by_cases h : ss.any (fun r => decide (r.assigns.1 = f)) = true
  · rw [if_pos h]
  · rw [if_neg h, lastAssigned_none f ss (by simpa using h)]

/-! ## The fetch: outcome and one record per row -/

theorem eachLoop_append {α : Type} (g : Selection → α) (l : List NodeRef) (i : Nat)
    (acc : List α) :
    eachLoop (fun _ s st => st ++ [g s]) i l acc = acc ++ l.map (fun n => g [n]) := by
  induction l generalizing i acc with
  | nil => simp [eachLoop]
  | cons n rest ih => simp [eachLoop, ih]

theorem Each_append {α : Type} (g : Selection → α) (s : Selection) :
    s.Each (fun _ s st => st ++ [g s]) [] = s.map (fun n => g [n]) := by
  simp [Selection.Each, eachLoop_append]

/-- The URL FetchRepos builds. -/
theorem FetchRepos_requests (w : World) (t : trending) :
    (FetchRepos w t).requests = [reposURL t.opts] := by
  unfold FetchRepos
  dsimp only
  split
  · rfl
  · split <;> rfl

theorem FetchRepos_get_error (w : World) (t : trending) (e : Error)
    (h : w.Get (reposURL t.opts) = .error e) :
    (FetchRepos w t).list = none ∧ (FetchRepos w t).err = some e := by
  unfold FetchRepos
  dsimp only
  rw [h]
  exact ⟨rfl, rfl⟩

theorem FetchRepos_parse_error (w : World) (t : trending) (body : String) (e : Error)
    (h : w.Get (reposURL t.opts) = .ok body) (hp : w.NewDocumentFromReader body = .error e) :
    (FetchRepos w t).list = none ∧ (FetchRepos w t).err = some e := by
  unfold FetchRepos
  dsimp only
  rw [h]
  dsimp only
  rw [hp]
  exact ⟨rfl, rfl⟩

theorem FetchRepos_ok (w : World) (t : trending) (body : String) (doc : Node)
    (h : w.Get (reposURL t.opts) = .ok body) (hp : w.NewDocumentFromReader body = .ok doc) :
    (FetchRepos w t).list =
        some (((documentSelection doc).Find selBoxRow).map
          (fun r => repoOfRow w.IntSize t.opts [r])) ∧
      (FetchRepos w t).err = none := by
  unfold FetchRepos
  dsimp only
  rw [h]
  dsimp only
  rw [hp]
  dsimp only
  rw [Each_append]
  exact ⟨rfl, rfl⟩

theorem FetchDevelopers_requests (w : World) (t : trending) :
    (FetchDevelopers w t).requests = [developersURL t.opts] := by
  unfold FetchDevelopers
  dsimp only
  split
  · rfl
  · split <;> rfl

theorem FetchDevelopers_get_error (w : World) (t : trending) (e : Error)
    (h : w.Get (developersURL t.opts) = .error e) :
    (FetchDevelopers w t).list = none ∧ (FetchDevelopers w t).err = some e := by
  unfold FetchDevelopers
  dsimp only
  rw [h]
  exact ⟨rfl, rfl⟩

theorem FetchDevelopers_parse_error (w : World) (t : trending) (body : String) (e : Error)
    (h : w.Get (developersURL t.opts) = .ok body)
    (hp : w.NewDocumentFromReader body = .error e) :
    (FetchDevelopers w t).list = none ∧ (FetchDevelopers w t).err = some e := by
  unfold FetchDevelopers
  dsimp only
  rw [h]
  dsimp only
  rw [hp]
  exact ⟨rfl, rfl⟩

theorem FetchDevelopers_ok (w : World) (t : trending) (body : String) (doc : Node)
    (h : w.Get (developersURL t.opts) = .ok body)
    (hp : w.NewDocumentFromReader body = .ok doc) :
    (FetchDevelopers w t).list =
        some (((documentSelection doc).Find selBoxRow).map (fun r => developerOfRow [r])) ∧
      (FetchDevelopers w t).err = none := by
  unfold FetchDevelopers
  dsimp only
  rw [h]
  dsimp only
  rw [hp]
  dsimp only
  rw [Each_append]
  exact ⟨rfl, rfl⟩

theorem splitNChars_ne_nil (sep s : List Char) (n : Nat) : splitNChars sep (n + 1) s ≠ [] := by
  cases n with
  | zero => simp [splitNChars]
  | succ k =>
    unfold splitNChars
    split <;> simp


/-! ## Library lemmas: trimming, replacing, splitting -/

theorem dropWhile_append_all {α : Type} (f : α → Bool) (pre t : List α)
    (hpre : ∀ c ∈ pre, f c = true) : (pre ++ t).dropWhile f = t.dropWhile f := by
  induction pre with
  | nil => rfl
  | cons a rest ih =>
    have ha : f a = true := hpre a (by simp)
    simp only [List.cons_append, List.dropWhile_cons, ha, if_true]
    exact ih (fun c hc => hpre c (List.mem_cons_of_mem _ hc))

theorem dropWhile_all {α : Type} (f : α → Bool) (l : List α)
    (h : ∀ c ∈ l, f c = true) : l.dropWhile f = [] := by
  have := dropWhile_append_all f l [] h
  simpa using this

theorem dropWhile_none {α : Type} (f : α → Bool) (l : List α)
    (h : ∀ c ∈ l, f c = false) : l.dropWhile f = l := by
  cases l with
  | nil => rfl
  | cons a rest => simp [List.dropWhile_cons, h a (by simp)]

theorem dropWhile_append_none {α : Type} (f : α → Bool) (t post : List α) (hne : t ≠ [])
    (h : ∀ c ∈ t, f c = false) : (t ++ post).dropWhile f = t ++ post := by
  cases t with
  | nil => exact absurd rfl hne
  | cons a rest => simp [List.dropWhile_cons, h a (by simp)]

theorem TrimFunc_framed (f : Char → Bool) (pre t post : List Char)
    (hpre : ∀ c ∈ pre, f c = true) (hpost : ∀ c ∈ post, f c = true)
    (ht : ∀ c ∈ t, f c = false) : TrimFunc (pre ++ t ++ post) f = t := by
  unfold TrimFunc TrimLeftFunc TrimRightFunc
  rw [List.append_assoc, dropWhile_append_all f pre _ hpre]
  by_cases hne : t = []
  · subst hne
    simp only [List.nil_append]
    rw [dropWhile_all f post hpost]
    simp
  · rw [dropWhile_append_none f t post hne ht, List.reverse_append,
      dropWhile_append_all f post.reverse _ (by simpa using hpost),
      dropWhile_none f t.reverse (by simpa using ht)]
    simp

theorem replaceChars_comma (l : List Char) :
    replaceChars [','] [] 0 l = l.filter (fun c => c != ',') := by
  induction l with
  | nil => rfl
  | cons c rest ih =>
    by_cases hc : c = ','
    · subst hc
      simp [replaceChars, List.isPrefixOf, ih]
    · have hc2 : ¬ ',' = c := fun h => hc h.symm
      simp [replaceChars, List.isPrefixOf, ih, hc, hc2]

theorem cutChars_space (l : List Char) :
    (match cutChars [' '] l with
      | none => l
      | some p => p.1) = l.takeWhile (fun c => c != ' ') := by
  induction l with
  | nil => rfl
  | cons c rest ih =>
    by_cases hc : c = ' '
    · subst hc
      simp [cutChars, List.isPrefixOf]
    · simp only [cutChars, List.isPrefixOf, List.takeWhile_cons]
      have hc2 : ¬ ' ' = c := fun h => hc h.symm
      have h2 : (c != ' ') = true := by simpa using hc
      simp only [h2, if_true]
      cases hcut : cutChars [' '] rest with
      | none =>
        rw [hcut] at ih
        simp [← ih, hc2]
      | some p =>
        rw [hcut] at ih
        simp [← ih, hc2]

theorem SplitN_two_head (s : String) :
    (SplitN s " " 2).headD "" = String.mk (s.data.takeWhile (fun c => c != ' ')) := by
  have h := cutChars_space s.data
  unfold SplitN
  show (List.map String.mk (splitNChars [' '] 2 s.data)).headD "" = _
  unfold splitNChars
  cases hcut : cutChars [' '] s.data with
  | none =>
    rw [hcut] at h
    simp [← h]
  | some p =>
    rw [hcut] at h
    obtain ⟨a, b⟩ := p
    simp [← h]

/-! ## Library lemmas: strconv -/

theorem decimalFrom_cons (n : Nat) (c : Char) (rest : List Char) :
    decimalFrom n (c :: rest) = decimalFrom (10 * n + (c.toNat - '0'.toNat)) rest := rfl

theorem parseUintLoop_cons (maxVal n : Nat) (c : Char) (rest : List Char) :
    parseUintLoop maxVal n (c :: rest) =
      if '0'.toNat ≤ c.toNat ∧ c.toNat ≤ '9'.toNat then
        if n ≥ (2 ^ 64 - 1) / 10 + 1 then (maxVal, some NumError.ErrRange)
        else if (n * 10 % 2 ^ 64 + (c.toNat - '0'.toNat)) % 2 ^ 64 < n * 10 % 2 ^ 64 ∨
            (n * 10 % 2 ^ 64 + (c.toNat - '0'.toNat)) % 2 ^ 64 > maxVal then
          (maxVal, some NumError.ErrRange)
        else parseUintLoop maxVal ((n * 10 % 2 ^ 64 + (c.toNat - '0'.toNat)) % 2 ^ 64) rest
      else (0, some NumError.ErrSyntax) := rfl

theorem decimalFrom_ge (ds : List Char) (n : Nat) : n ≤ decimalFrom n ds := by
  induction ds generalizing n with
  | nil => exact Nat.le_refl _
  | cons c rest ih =>
    have h := ih (10 * n + (c.toNat - '0'.toNat))
    rw [decimalFrom_cons]
    omega

theorem isDecimalDigit_iff (c : Char) :
    isDecimalDigit c = true ↔ '0'.toNat ≤ c.toNat ∧ c.toNat ≤ '9'.toNat := by
  simp [isDecimalDigit]

theorem parseUintLoop_digits (maxVal : Nat) (hmax : maxVal < 2 ^ 64) (ds tail : List Char)
    (n : Nat) (hds : ∀ c ∈ ds, isDecimalDigit c = true) (hv : decimalFrom n ds ≤ maxVal) :
    parseUintLoop maxVal n (ds ++ tail) = parseUintLoop maxVal (decimalFrom n ds) tail := by
  induction ds generalizing n with
  | nil => rfl
  | cons c rest ih =>
    have hc := (isDecimalDigit_iff c).mp (hds c (by simp))
    have h0 : '0'.toNat = 48 := rfl
    have h9 : '9'.toNat = 57 := rfl
    have hge := decimalFrom_ge rest (10 * n + (c.toNat - '0'.toNat))
    rw [decimalFrom_cons] at hv
    rw [List.cons_append, parseUintLoop_cons, decimalFrom_cons, if_pos hc]
    have hn : ¬ n ≥ (2 ^ 64 - 1) / 10 + 1 := by
      norm_num
      norm_num at hmax
      omega
    rw [if_neg hn]
    have e1 : n * 10 % 2 ^ 64 = n * 10 := by
      apply Nat.mod_eq_of_lt
      norm_num
      norm_num at hmax
      omega
    have e2 : (n * 10 + (c.toNat - '0'.toNat)) % 2 ^ 64 = 10 * n + (c.toNat - '0'.toNat) := by
      rw [Nat.mod_eq_of_lt]
      · omega
      · norm_num
        norm_num at hmax
        omega
    simp only [e1, e2]
    have hno : ¬ (10 * n + (c.toNat - '0'.toNat) < n * 10 ∨
        10 * n + (c.toNat - '0'.toNat) > maxVal) := by
      omega
    rw [if_neg hno]
    exact ih _ (fun d hd => hds d (List.mem_cons_of_mem _ hd)) hv

theorem parseUintLoop_overflow (maxVal : Nat) (ds tail : List Char)
    (n : Nat) (hn : n ≤ maxVal) (hds : ∀ c ∈ ds, isDecimalDigit c = true)
    (hv : maxVal < decimalFrom n ds) :
    parseUintLoop maxVal n (ds ++ tail) = (maxVal, some NumError.ErrRange) := by
  induction ds generalizing n with
  | nil =>
    have hv2 : maxVal < n := hv
    omega
  | cons c rest ih =>
    have hc := (isDecimalDigit_iff c).mp (hds c (by simp))
    have h0 : '0'.toNat = 48 := rfl
    have h9 : '9'.toNat = 57 := rfl
    rw [decimalFrom_cons] at hv
    rw [List.cons_append, parseUintLoop_cons, if_pos hc]
    by_cases hcut : n ≥ (2 ^ 64 - 1) / 10 + 1
    · rw [if_pos hcut]
    · rw [if_neg hcut]
      have e1 : n * 10 % 2 ^ 64 = n * 10 := by
        apply Nat.mod_eq_of_lt
        norm_num
        norm_num at hcut
        omega
      simp only [e1]
      by_cases hwrap : n * 10 + (c.toNat - '0'.toNat) < 2 ^ 64
      · have e2 : (n * 10 + (c.toNat - '0'.toNat)) % 2 ^ 64 =
            10 * n + (c.toNat - '0'.toNat) := by
          rw [Nat.mod_eq_of_lt hwrap]
          omega
        simp only [e2]
        by_cases hbig : 10 * n + (c.toNat - '0'.toNat) > maxVal
        · rw [if_pos (Or.inr hbig)]
        · have hno : ¬ (10 * n + (c.toNat - '0'.toNat) < n * 10 ∨
              10 * n + (c.toNat - '0'.toNat) > maxVal) := by
            omega
          rw [if_neg hno]
          exact ih _ (by omega) (fun d hd => hds d (List.mem_cons_of_mem _ hd)) hv
      · have e2 : (n * 10 + (c.toNat - '0'.toNat)) % 2 ^ 64 =
            n * 10 + (c.toNat - '0'.toNat) - 2 ^ 64 := by
          rw [Nat.mod_eq_sub_mod (by omega)]
          apply Nat.mod_eq_of_lt
          norm_num
          norm_num at hcut
          omega
        simp only [e2]
        have hlt : n * 10 + (c.toNat - '0'.toNat) - 2 ^ 64 < n * 10 := by
          norm_num
          norm_num at hwrap
          omega
        rw [if_pos (Or.inl hlt)]

theorem parseUintLoop_nondigit (maxVal n : Nat) (c : Char) (rest : List Char)
    (hc : isDecimalDigit c = false) :
    parseUintLoop maxVal n (c :: rest) = (0, some NumError.ErrSyntax) := by
  have hc2 : ¬ ('0'.toNat ≤ c.toNat ∧ c.toNat ≤ '9'.toNat) := by
    intro h
    rw [(isDecimalDigit_iff c).mpr h] at hc
    exact Bool.noConfusion hc
  rw [parseUintLoop_cons, if_neg hc2]

theorem ParseInt_cons (intSize : Nat) (c : Char) (rest : List Char) :
    ParseInt intSize (c :: rest) =
      if (ParseUint intSize (unsignedPart (c :: rest))).2 = some NumError.ErrSyntax then
        (0, (ParseUint intSize (unsignedPart (c :: rest))).2)
      else if (!decide (c = '-')) ∧
          (ParseUint intSize (unsignedPart (c :: rest))).1 ≥ 2 ^ (intSize - 1) then
        (((2 ^ (intSize - 1) : Nat) : Int) - 1, some NumError.ErrRange)
      else if decide (c = '-') ∧
          (ParseUint intSize (unsignedPart (c :: rest))).1 > 2 ^ (intSize - 1) then
        (-((2 ^ (intSize - 1) : Nat) : Int), some NumError.ErrRange)
      else
        (if decide (c = '-') then -(((ParseUint intSize (unsignedPart (c :: rest))).1 : Nat) : Int)
          else (((ParseUint intSize (unsignedPart (c :: rest))).1 : Nat) : Int), none) := by
  unfold ParseInt unsignedPart
  simp only [List.head?_cons, Option.some.injEq, List.tail_cons]
  rfl

theorem maxVal_lt (intSize : Nat) (hsz : intSize = 32 ∨ intSize = 64) :
    2 ^ intSize - 1 < 2 ^ 64 := by
  rcases hsz with h | h <;> subst h <;> norm_num

theorem ParseUint_malformed (intSize : Nat) (hsz : intSize = 32 ∨ intSize = 64) (r : List Char)
    (h : r = [] ∨ ∃ ds c rest, r = ds ++ c :: rest ∧ (∀ d ∈ ds, isDecimalDigit d = true) ∧
      isDecimalDigit c = false ∧ decimalValue ds ≤ 2 ^ intSize - 1) :
    ParseUint intSize r = (0, some NumError.ErrSyntax) := by
  rcases h with h | ⟨ds, c, rest, hr, hds, hc, hv⟩
  · subst h
    rfl
  · subst hr
    unfold ParseUint
    rw [if_neg (by simp)]
    rw [parseUintLoop_digits _ (maxVal_lt intSize hsz) ds (c :: rest) 0 hds hv]
    exact parseUintLoop_nondigit _ _ c rest hc

theorem ParseInt_malformed (intSize : Nat) (hsz : intSize = 32 ∨ intSize = 64) (s : List Char)
    (h : isMalformed intSize s) : ParseInt intSize s = (0, some NumError.ErrSyntax) := by
  cases s with
  | nil => rfl
  | cons c rest =>
    have hu := ParseUint_malformed intSize hsz (unsignedPart (c :: rest)) h
    rw [ParseInt_cons, hu]
    simp

theorem ParseUint_digits (intSize : Nat) (hsz : intSize = 32 ∨ intSize = 64) (ds : List Char)
    (hne : ds ≠ []) (hds : ∀ d ∈ ds, isDecimalDigit d = true) :
    ParseUint intSize ds =
      if decimalValue ds ≤ 2 ^ intSize - 1 then (decimalValue ds, none)
      else (2 ^ intSize - 1, some NumError.ErrRange) := by
  unfold ParseUint
  rw [if_neg hne]
  by_cases hv : decimalValue ds ≤ 2 ^ intSize - 1
  · rw [if_pos hv]
    have := parseUintLoop_digits _ (maxVal_lt intSize hsz) ds [] 0 hds hv
    rw [List.append_nil] at this
    rw [this]
    rfl
  · rw [if_neg hv]
    have := parseUintLoop_overflow (2 ^ intSize - 1) ds [] 0 (Nat.zero_le _) hds
      (Nat.lt_of_not_le hv)
    rw [List.append_nil] at this
    exact this

theorem unsignedPart_digits (ds : List Char) (hds : ∀ d ∈ ds, isDecimalDigit d = true) :
    unsignedPart ds = ds := by
  cases ds with
  | nil => rfl
  | cons c rest =>
    have hc := (isDecimalDigit_iff c).mp (hds c (by simp))
    have h0 : '0'.toNat = 48 := rfl
    have hp : c ≠ '+' := by
      intro e
      subst e
      have : '+'.toNat = 43 := rfl
      omega
    have hm : c ≠ '-' := by
      intro e
      subst e
      have : '-'.toNat = 45 := rfl
      omega
    simp [unsignedPart, hp, hm]

theorem ParseInt_digits (intSize : Nat) (hsz : intSize = 32 ∨ intSize = 64) (ds : List Char)
    (hne : ds ≠ []) (hds : ∀ d ∈ ds, isDecimalDigit d = true) :
    ParseInt intSize ds =
      if decimalValue ds < 2 ^ (intSize - 1) then ((decimalValue ds : Int), none)
      else (((2 ^ (intSize - 1) : Nat) : Int) - 1, some NumError.ErrRange) := by
  cases ds with
  | nil => exact absurd rfl hne
  | cons c rest =>
    have hc := (isDecimalDigit_iff c).mp (hds c (by simp))
    have h0 : '0'.toNat = 48 := rfl
    have hm : c ≠ '-' := by
      intro e
      subst e
      have : '-'.toNat = 45 := rfl
      omega
    rw [ParseInt_cons, unsignedPart_digits _ hds, ParseUint_digits intSize hsz _ hne hds]
    have hpow : 2 ^ (intSize - 1) ≤ 2 ^ intSize - 1 ∧ 0 < 2 ^ (intSize - 1) := by
      rcases hsz with h | h <;> subst h <;> norm_num
    by_cases hv : decimalValue (c :: rest) ≤ 2 ^ intSize - 1
    · rw [if_pos hv]
      by_cases hv2 : decimalValue (c :: rest) < 2 ^ (intSize - 1)
      · simp [hm, hv2]
      · simp [hm, hv2]
    · rw [if_neg hv]
      have hv2 : ¬ decimalValue (c :: rest) < 2 ^ (intSize - 1) := by omega
      simp [hm, hv2]
      exact hpow.1

theorem toInt_id (intSize : Nat) (hsz : intSize = 32 ∨ intSize = 64) (v : Int)
    (hlo : -((2 ^ (intSize - 1) : Nat) : Int) ≤ v) (hhi : v < ((2 ^ (intSize - 1) : Nat) : Int)) :
    toInt intSize v = v := by
  unfold toInt
  rcases hsz with h | h <;> subst h <;> norm_num at hlo hhi ⊢ <;> omega

theorem Atoi_malformed (intSize : Nat) (hsz : intSize = 32 ∨ intSize = 64) (s : String)
    (h : isMalformed intSize s.data) : Atoi intSize s = (0, some NumError.ErrSyntax) := by
  unfold Atoi
  rw [ParseInt_malformed intSize hsz _ h]
  have := toInt_id intSize hsz 0 (by
    rcases hsz with h | h <;> subst h <;> norm_num) (by
    rcases hsz with h | h <;> subst h <;> norm_num)
  simp [this]

theorem Atoi_digits (intSize : Nat) (hsz : intSize = 32 ∨ intSize = 64) (s : String)
    (hne : s.data ≠ []) (hds : ∀ d ∈ s.data, isDecimalDigit d = true) :
    Atoi intSize s =
      if decimalValue s.data < 2 ^ (intSize - 1) then ((decimalValue s.data : Int), none)
      else (((2 ^ (intSize - 1) : Nat) : Int) - 1, some NumError.ErrRange) := by
  unfold Atoi
  rw [ParseInt_digits intSize hsz _ hne hds]
  by_cases hv : decimalValue s.data < 2 ^ (intSize - 1)
  · rw [if_pos hv]
    have := toInt_id intSize hsz (decimalValue s.data) (by omega) (by exact_mod_cast hv)
    simp [this]
  · rw [if_neg hv]
    have := toInt_id intSize hsz (((2 ^ (intSize - 1) : Nat) : Int) - 1) (by
      rcases hsz with h | h <;> subst h <;> norm_num) (by omega)
    simp only [this]

/-! ## Library lemmas: selections -/

theorem take_one_drop {α : Type} (l : List α) (i : Nat) : (l.drop i).take 1 = l[i]?.toList := by
  induction l generalizing i with
  | nil => simp
  | cons a rest ih =>
    cases i with
    | zero => simp
    | succ k => simpa using ih k

theorem Eq_ofNat (s : Selection) (k : Nat) : s.Eq (k : Int) = s[k]?.toList := by
  unfold Selection.Eq
  have h0 : ¬ ((k : Int) < 0) := by omega
  simp only [h0, if_false]
  by_cases hk : (k : Int) ≥ (s.length : Int)
  · have : s.length ≤ k := by omega
    simp [hk, List.getElem?_eq_none this]
  · have : ¬ ((k : Int) ≥ (s.length : Int) ∨ False) := by simpa using hk
    rw [if_neg this]
    simpa using take_one_drop s k

theorem Eq_negSucc (s : Selection) (k : Nat) : s.Eq (-((k + 1 : Nat) : Int)) = s.reverse[k]?.toList := by
  unfold Selection.Eq
  have h0 : (-((k + 1 : Nat) : Int) < 0) := by omega
  simp only [h0, if_true]
  by_cases hk : s.length < k + 1
  · have h1 : (-((k + 1 : Nat) : Int) + (s.length : Int) ≥ (s.length : Int) ∨
        -((k + 1 : Nat) : Int) + (s.length : Int) < 0) := by
      right
      omega
    rw [if_pos h1, List.getElem?_eq_none (by simpa using (by omega : s.length ≤ k))]
    rfl
  · have h1 : ¬ (-((k + 1 : Nat) : Int) + (s.length : Int) ≥ (s.length : Int) ∨
        -((k + 1 : Nat) : Int) + (s.length : Int) < 0) := by
      omega
    rw [if_neg h1]
    have h2 : (-((k + 1 : Nat) : Int) + (s.length : Int)).toNat = s.length - 1 - k := by omega
    rw [h2, take_one_drop, List.getElem?_reverse (by omega)]

theorem Text_toList (e : Option NodeRef) : Selection.Text e.toList = textOf e := by
  cases e with
  | none => rfl
  | some r => simp [Selection.Text, textOf]

theorem Attr_singleton (img : NodeRef) (name : String) :
    Selection.Attr [img] name = getAttributeValue name img.node.Attr := rfl

/-! ## The fields of a row -/

theorem Replace_comma (s : String) :
    Replace s "," "" = String.mk (s.data.filter (fun c => c != ',')) := by
  show String.mk (replaceChars [','] [] 0 s.data) = _
  rw [replaceChars_comma]

theorem repoOfRow_Stars (intSize : Nat) (opts : options) (row : NodeRef) :
    (repoOfRow intSize opts [row]).Stars = (Atoi intSize (starsSource row)).1 := by
  unfold repoOfRow starsSource countText secondToLast
  dsimp only
  rw [Replace_comma]
  have h := Eq_negSucc (Selection.Find [row] selDivA) 1
  have e : (-((1 + 1 : Nat) : Int)) = -2 := rfl
  rw [e] at h
  rw [h, Text_toList]

theorem repoOfRow_Forks (intSize : Nat) (opts : options) (row : NodeRef) :
    (repoOfRow intSize opts [row]).Forks = (Atoi intSize (forksSource row)).1 := by
  unfold repoOfRow forksSource countText lastOf
  dsimp only
  rw [Replace_comma]
  have h := Eq_negSucc (Selection.Find [row] selDivA) 0
  have e : (-((0 + 1 : Nat) : Int)) = -1 := rfl
  rw [e] at h
  rw [h, Text_toList]

theorem repoOfRow_two_spans (intSize : Nat) (opts : options) (row : NodeRef)
    (h : (Selection.Find [row] selDivSpan).length = 2) :
    (repoOfRow intSize opts [row]).Lang = "unknown" ∧
      (repoOfRow intSize opts [row]).Add =
        addCount intSize (textOf (Selection.Find [row] selDivSpan)[1]?) ∧
      (repoOfRow intSize opts [row]).BuiltBy = imageSources (Selection.Find [row] selDivSpan)[0]? := by
  have hsize : Selection.Size (Selection.Find [row] selDivSpan) = 2 := by
    simp [Selection.Size, h]
  have e0 : (0 : Int) = ((0 : Nat) : Int) := rfl
  have e1 : (1 : Int) = ((1 : Nat) : Int) := rfl
  unfold repoOfRow addCount firstField imageSources
  simp only [hsize, if_true]
  refine ⟨by simp, ?_, ?_⟩
  · rw [SplitN_two_head, e1, Eq_ofNat, Text_toList]
  · rw [Each_append, e0, Eq_ofNat]
    rfl

theorem repoOfRow_other_spans (intSize : Nat) (opts : options) (row : NodeRef)
    (h : (Selection.Find [row] selDivSpan).length ≠ 2) :
    (repoOfRow intSize opts [row]).Lang =
        TrimSpace (textOf (Selection.Find [row] selDivSpan)[0]?) ∧
      (repoOfRow intSize opts [row]).Add =
        addCount intSize (textOf (Selection.Find [row] selDivSpan)[2]?) ∧
      (repoOfRow intSize opts [row]).BuiltBy = imageSources (Selection.Find [row] selDivSpan)[1]? := by
  have hsize : ¬ Selection.Size (Selection.Find [row] selDivSpan) = 2 := by
    simp only [Selection.Size]
    omega
  have e0 : (0 : Int) = ((0 : Nat) : Int) := rfl
  have e1 : (1 : Int) = ((1 : Nat) : Int) := rfl
  have e2 : (2 : Int) = ((2 : Nat) : Int) := rfl
  unfold repoOfRow addCount firstField imageSources
  simp only [hsize, if_false]
  refine ⟨?_, ?_, ?_⟩
  · simp only [ge_iff_le, le_refl, if_true]
    rw [e0, Eq_ofNat, Text_toList]
  · rw [SplitN_two_head, e2, Eq_ofNat, Text_toList]
  · rw [Each_append, e1, Eq_ofNat]
    rfl

theorem repoOfRow_Add (intSize : Nat) (opts : options) (row : NodeRef) :
    (repoOfRow intSize opts [row]).Add = (Atoi intSize (addSource row)).1 := by
  by_cases h : (Selection.Find [row] selDivSpan).length = 2
  · rw [(repoOfRow_two_spans intSize opts row h).2.1]
    simp [addSource, addSpan, addCount, h]
  · rw [(repoOfRow_other_spans intSize opts row h).2.1]
    simp [addSource, addSpan, addCount, h]

/-! ## Numerals -/

theorem IsSpace_of_toNat (c : Char) (h : 33 ≤ c.toNat ∧ c.toNat ≤ 126) : IsSpace c = false := by
  unfold IsSpace
  have h1 : c.toNat ≤ 0xFF := by omega
  simp only [h1, if_true]
  have e1 : ¬ c.toNat = 0x09 := by omega
  have e2 : ¬ c.toNat = 0x0A := by omega
  have e3 : ¬ c.toNat = 0x0B := by omega
  have e4 : ¬ c.toNat = 0x0C := by omega
  have e5 : ¬ c.toNat = 0x0D := by omega
  have e6 : ¬ c.toNat = 0x20 := by omega
  have e7 : ¬ c.toNat = 0x85 := by omega
  have e8 : ¬ c.toNat = 0xA0 := by omega
  simp [e1, e2, e3, e4, e5, e6, e7, e8]

theorem IsSpace_digit (c : Char) (h : isDecimalDigit c = true) : IsSpace c = false := by
  have hc := (isDecimalDigit_iff c).mp h
  have h0 : '0'.toNat = 48 := rfl
  have h9 : '9'.toNat = 57 := rfl
  exact IsSpace_of_toNat c (by omega)

theorem isDecimalDigit_comma : isDecimalDigit ',' = false := by decide

theorem isNumeral_mem (t : List Char) (h : isNumeral t = true) (c : Char) (hc : c ∈ t) :
    isDecimalDigit c = true ∨ c = ',' := by
  unfold isNumeral at h
  have h1 := (Bool.and_eq_true _ _).mp h
  have h2 := List.all_eq_true.mp h1.1 c hc
  simpa using h2

theorem isNumeral_not_space (t : List Char) (h : isNumeral t = true) :
    ∀ c ∈ t, IsSpace c = false := by
  intro c hc
  rcases isNumeral_mem t h c hc with hd | hcomma
  · exact IsSpace_digit c hd
  · subst hcomma
    decide

theorem isNumeral_filter (t : List Char) (h : isNumeral t = true) :
    t.filter (fun c => c != ',') = t.filter isDecimalDigit := by
  apply List.filter_congr
  intro c hc
  rcases isNumeral_mem t h c hc with hd | hcomma
  · have : c ≠ ',' := by
      intro e
      subst e
      rw [isDecimalDigit_comma] at hd
      exact Bool.noConfusion hd
    simp [hd, this]
  · subst hcomma
    simp [isDecimalDigit_comma]

theorem isNumeral_digits_ne_nil (t : List Char) (h : isNumeral t = true) :
    t.filter isDecimalDigit ≠ [] := by
  unfold isNumeral at h
  have h1 := (Bool.and_eq_true _ _).mp h
  obtain ⟨c, hc, hd⟩ := List.any_eq_true.mp h1.2
  intro e
  have : c ∈ t.filter isDecimalDigit := List.mem_filter.mpr ⟨hc, hd⟩
  rw [e] at this
  exact List.not_mem_nil _ this

theorem countText_numeral (pre t post : List Char) (hpre : isBlank pre = true)
    (hpost : isBlank post = true) (ht : isNumeral t = true) :
    countText (String.mk (pre ++ t ++ post)) = String.mk (t.filter isDecimalDigit) := by
  unfold countText TrimSpace
  have hpre2 : ∀ c ∈ pre, IsSpace c = true := List.all_eq_true.mp hpre
  have hpost2 : ∀ c ∈ post, IsSpace c = true := List.all_eq_true.mp hpost
  show String.mk (List.filter (fun c => c != ',') (TrimFunc (pre ++ t ++ post) IsSpace)) = _
  rw [TrimFunc_framed IsSpace pre t post hpre2 hpost2 (isNumeral_not_space t ht),
    isNumeral_filter t ht]

/-- A count written as a numeral that fits in `int` is read as its value. -/
theorem Atoi_countText_numeral (intSize : Nat) (hsz : intSize = 32 ∨ intSize = 64)
    (pre t post : List Char) (hpre : isBlank pre = true) (hpost : isBlank post = true)
    (ht : isNumeral t = true) (hfit : numeralValue t < 2 ^ (intSize - 1)) :
    (Atoi intSize (countText (String.mk (pre ++ t ++ post)))).1 = (numeralValue t : Int) := by
  rw [countText_numeral pre t post hpre hpost ht,
    Atoi_digits intSize hsz _ (isNumeral_digits_ne_nil t ht)
      (fun d hd => (List.mem_filter.mp hd).2)]
  unfold numeralValue at hfit ⊢
  rw [if_pos hfit]

/-! ## Document order of a selection -/

mutual
theorem matchAllInto_eq_filter (m : Selector) :
    ∀ (n : Node) (path : List Nat) (anc : List Node),
      matchAllInto m path anc n =
        (subtreeRefs path anc n).filter (fun r => m.Match r.node r.ancestors)
  | .mk t d a cs, path, anc => by
    rw [matchAllInto, subtreeRefs, matchAllChildren_eq_filter m cs path _ 0]
    by_cases h : m.Match (.mk t d a cs) anc = true
    · simp [List.filter_cons, h]
    · simp [List.filter_cons, h]
theorem matchAllChildren_eq_filter (m : Selector) :
    ∀ (cs : List Node) (path : List Nat) (anc : List Node) (i : Nat),
      matchAllChildren m path anc i cs =
        (childrenRefs path anc i cs).filter (fun r => m.Match r.node r.ancestors)
  | [], _, _, _ => by simp [matchAllChildren, childrenRefs]
  | c :: cs, path, anc, i => by
    rw [matchAllChildren, childrenRefs, matchAllInto_eq_filter m c,
      matchAllChildren_eq_filter m cs, List.filter_append]
end

theorem docBefore_append (p x y : List Nat) : docBefore (p ++ x) (p ++ y) = docBefore x y := by
  induction p with
  | nil => rfl
  | cons a rest ih => simp [docBefore, ih]

theorem docBefore_irrefl (p : List Nat) : docBefore p p = false := by
  induction p with
  | nil => rfl
  | cons a rest ih => simp [docBefore, ih]

theorem docBefore_self_append (p : List Nat) (j : Nat) (q : List Nat) :
    docBefore p (p ++ j :: q) = true := by
  have h := docBefore_append p [] (j :: q)
  rw [List.append_nil] at h
  rw [h]
  rfl

theorem docBefore_siblings (p : List Nat) (i j : Nat) (x y : List Nat) (h : i < j) :
    docBefore (p ++ i :: x) (p ++ j :: y) = true := by
  rw [docBefore_append]
  simp [docBefore, h]

mutual
theorem subtreeRefs_path :
    ∀ (n : Node) (path : List Nat) (anc : List Node) (r : NodeRef),
      r ∈ subtreeRefs path anc n → r.path = path ∨ ∃ j q, r.path = path ++ j :: q
  | .mk t d a cs, path, anc, r => by
    intro hr
    rw [subtreeRefs, List.mem_cons] at hr
    rcases hr with hr | hr
    · left
      rw [hr]
    · right
      obtain ⟨j, q, _, hq⟩ := childrenRefs_path cs path _ 0 r hr
      exact ⟨j, q, hq⟩
theorem childrenRefs_path :
    ∀ (cs : List Node) (path : List Nat) (anc : List Node) (i : Nat) (r : NodeRef),
      r ∈ childrenRefs path anc i cs → ∃ j q, i ≤ j ∧ r.path = path ++ j :: q
  | [], _, _, _, r => by
    intro hr
    simp [childrenRefs] at hr
  | c :: cs, path, anc, i, r => by
    intro hr
    rw [childrenRefs, List.mem_append] at hr
    rcases hr with hr | hr
    · rcases subtreeRefs_path c (path ++ [i]) anc r hr with h | ⟨j, q, h⟩
      · exact ⟨i, [], Nat.le_refl _, by simp [h]⟩
      · exact ⟨i, j :: q, Nat.le_refl _, by simp [h]⟩
    · obtain ⟨j, q, hj, hq⟩ := childrenRefs_path cs path anc (i + 1) r hr
      exact ⟨j, q, by omega, hq⟩
end

mutual
theorem subtreeRefs_sorted :
    ∀ (n : Node) (path : List Nat) (anc : List Node),
      (subtreeRefs path anc n).Pairwise (fun r s => docBefore r.path s.path = true)
  | .mk t d a cs, path, anc => by
    rw [subtreeRefs, List.pairwise_cons]
    refine ⟨?_, childrenRefs_sorted cs path _ 0⟩
    intro s hs
    obtain ⟨j, q, _, hq⟩ := childrenRefs_path cs path _ 0 s hs
    rw [hq]
    exact docBefore_self_append path j q
theorem childrenRefs_sorted :
    ∀ (cs : List Node) (path : List Nat) (anc : List Node) (i : Nat),
      (childrenRefs path anc i cs).Pairwise (fun r s => docBefore r.path s.path = true)
  | [], _, _, _ => by simp [childrenRefs]
  | c :: cs, path, anc, i => by
    rw [childrenRefs, List.pairwise_append]
    refine ⟨subtreeRefs_sorted c (path ++ [i]) anc, childrenRefs_sorted cs path anc (i + 1), ?_⟩
    intro r hr s hs
    obtain ⟨j, q, hj, hq⟩ := childrenRefs_path cs path anc (i + 1) s hs
    rw [hq]
    rcases subtreeRefs_path c (path ++ [i]) anc r hr with h | ⟨k, x, h⟩
    · rw [h]
      exact docBefore_siblings path i j [] q (by omega)
    · rw [h, List.append_assoc]
      exact docBefore_siblings path i j (k :: x) q (by omega)
end

theorem appendWithoutDuplicates_distinct (nodes target : List NodeRef)
    (h : (target ++ nodes).Pairwise (fun r s => docBefore r.path s.path = true)) :
    appendWithoutDuplicates target nodes = target ++ nodes := by
  induction nodes generalizing target with
  | nil => simp [appendWithoutDuplicates]
  | cons n rest ih =>
    have hany : target.any (fun m => decide (m.path = n.path)) = false := by
      rw [List.any_eq_false]
      intro m hm
      have hb : docBefore m.path n.path = true :=
        (List.pairwise_append.mp h).2.2 m hm n (by simp)
      intro e
      have e2 : m.path = n.path := by simpa using e
      rw [e2, docBefore_irrefl] at hb
      exact Bool.noConfusion hb
    have hstep : appendWithoutDuplicates target (n :: rest) =
        appendWithoutDuplicates (target ++ [n]) rest := by
      simp only [appendWithoutDuplicates, List.foldl_cons, hany]
      rfl
    rw [hstep, ih (target ++ [n]) (by simpa using h)]
    simp

theorem flatMap_enumFrom_subtreeRefs (cs : List Node) (path : List Nat) (anc : List Node)
    (i : Nat) :
    ((cs.enumFrom i).map (fun p => (⟨path ++ [p.1], anc, p.2⟩ : NodeRef))).flatMap
        (fun c => subtreeRefs c.path c.ancestors c.node) =
      childrenRefs path anc i cs := by
  induction cs generalizing i with
  | nil => simp [childrenRefs]
  | cons c rest ih =>
    rw [childrenRefs, ← ih (i + 1)]
    simp [List.enumFrom]

theorem filter_flatMap_sublist {α β : Type} (p : α → Bool) (f : α → List β) (l : List α) :
    ((l.filter p).flatMap f).Sublist (l.flatMap f) := by
  induction l with
  | nil => simp
  | cons a rest ih =>
    by_cases h : p a = true
    · simp only [List.filter_cons, h, if_true, List.flatMap_cons]
      exact List.Sublist.append (List.Sublist.refl _) ih
    · simp only [List.filter_cons, h, List.flatMap_cons]
      exact List.Sublist.trans ih (List.sublist_append_right _ _)

theorem documentDescendants_sorted (doc : Node) :
    (documentDescendants doc).Pairwise (fun r s => docBefore r.path s.path = true) := by
  unfold documentDescendants
  apply List.Pairwise.sublist (filter_flatMap_sublist _ _ _)
  have h := flatMap_enumFrom_subtreeRefs doc.children [] [doc] 0
  unfold childRefs
  simp only [List.enum]
  rw [h]
  exact childrenRefs_sorted _ _ _ _

theorem Find_document (doc : Node) (m : Selector) :
    (documentSelection doc).Find m =
      (documentDescendants doc).filter (fun r => m.Match r.node r.ancestors) := by
  have hflat : ((childRefs { path := [], ancestors := [], node := doc }).filter
        (fun c => c.node.Typ = NodeType.ElementNode)).flatMap (MatchAll m) =
      (documentDescendants doc).filter (fun r => m.Match r.node r.ancestors) := by
    unfold documentDescendants
    rw [List.filter_flatMap]
    apply List.flatMap_congr
    intro c _
    exact matchAllInto_eq_filter m c.node c.path c.ancestors
  unfold documentSelection Selection.Find mapNodes
  simp only [List.foldl_cons, List.foldl_nil]
  rw [hflat]
  rw [appendWithoutDuplicates_distinct _ []]
  · rfl
  · rw [List.nil_append]
    exact List.Pairwise.sublist (List.filter_sublist _) (documentDescendants_sorted doc)

/-! ## The request URLs -/

/-- C1: for every options value, the one URL FetchRepos hands to `http.Get` is
GitHubURL ++ "/trending/" ++ Language ++ "?spoken_language_code=" ++ SpokenLang
++ "&since=" ++ DateRange, whatever the network answers; with no options this
is "http://github.com/trending/?spoken_language_code=&since=". -/
theorem FetchRepos_request_url (w : World) (o : options) :
    (FetchRepos w { opts := o }).requests =
        [o.GitHubURL ++ "/trending/" ++ o.Language ++ "?spoken_language_code=" ++ o.SpokenLang
          ++ "&since=" ++ o.DateRange] ∧
      (FetchRepos w (New [])).requests =
        ["http://github.com/trending/?spoken_language_code=&since="] := by
  have hurl : ∀ a b c d : String,
      Sprintf "%s/trending/%s?spoken_language_code=%s&since=%s" [a, b, c, d] =
        a ++ "/trending/" ++ b ++ "?spoken_language_code=" ++ c ++ "&since=" ++ d := by
    intro a b c d
    apply String.ext
    simp [Sprintf, sprintfChars]
  have hreq : ∀ t : trending, (FetchRepos w t).requests =
      [Sprintf "%s/trending/%s?spoken_language_code=%s&since=%s"
        [t.opts.GitHubURL, t.opts.Language, t.opts.SpokenLang, t.opts.DateRange]] :=
    fun t => FetchRepos_requests w t
  constructor
  · rw [hreq, hurl]
  · rw [hreq, hurl]
    decide

/-- C5 (the code as it is): the URL FetchDevelopers hands to `http.Get` carries
the programming language under the query key `lanugage`, not `language`; with
WithLanguage("go") it is "http://github.com/trending/developers?lanugage=go&since=",
which differs from the URL with the key `language`. -/
theorem FetchDevelopers_request_url_misspelt (w : World) (o : options) :
    (FetchDevelopers w { opts := o }).requests =
        [o.GitHubURL ++ "/trending/developers?lanugage=" ++ o.Language ++ "&since=" ++ o.DateRange] ∧
      (FetchDevelopers w (New [WithLanguage "go"])).requests =
        ["http://github.com/trending/developers?lanugage=go&since="] ∧
      (FetchDevelopers w (New [WithLanguage "go"])).requests ≠
        ["http://github.com" ++ "/trending/developers?language=" ++ "go" ++ "&since=" ++ ""] := by
  have hurl : ∀ a b c : String,
      Sprintf "%s/trending/developers?lanugage=%s&since=%s" [a, b, c] =
        a ++ "/trending/developers?lanugage=" ++ b ++ "&since=" ++ c := by
    intro a b c
    apply String.ext
    simp [Sprintf, sprintfChars]
  have hreq : ∀ t : trending, (FetchDevelopers w t).requests =
      [Sprintf "%s/trending/developers?lanugage=%s&since=%s"
        [t.opts.GitHubURL, t.opts.Language, t.opts.DateRange]] :=
    fun t => FetchDevelopers_requests w t
  refine ⟨?_, ?_, ?_⟩
  · rw [hreq, hurl]
  · rw [hreq, hurl]
    decide
  · rw [hreq, hurl]
    decide

/-! ## The options -/

/-- C9: loadOptions is the left-to-right fold of the options over the default
options: no options give the default; each of WithDaily, WithWeekly,
WithMonthly, WithDateRange, WithLanguage, WithSpokenLanguageCode and WithURL
sets its own field and leaves the other three as they were; the last option of
a list is applied to what the options before it built; and for every list of
options built with the exported constructors, every field ends with the value
of the last option of the list that sets it, or with its default when no option
sets it. -/
theorem loadOptions_fold (opts : List option) (f : option) (o : options) (a : String)
    (settings : List Setting) (field : Field) :
    loadOptions opts = opts.foldl (fun acc g => g acc) defaultOptions ∧
    loadOptions [] =
      { GitHubURL := "http://github.com", SpokenLang := "", Language := "", DateRange := "" } ∧
    (WithDaily o = { o with DateRange := "daily" } ∧
      WithWeekly o = { o with DateRange := "weekly" } ∧
      WithMonthly o = { o with DateRange := "monthly" } ∧
      WithDateRange a o = { o with DateRange := a } ∧
      WithLanguage a o = { o with Language := a } ∧
      WithSpokenLanguageCode a o = { o with SpokenLang := a } ∧
      WithURL a o = { o with GitHubURL := a }) ∧
    loadOptions (opts ++ [f]) = f (loadOptions opts) ∧
    (loadOptions (settings.map Setting.toOption)).get field = lastAssigned field settings ∧
    (loadOptions [WithLanguage "go", WithDaily, WithLanguage "rust", WithURL a]).Language
      = "rust" := by
  refine ⟨applyOptions_eq_foldl opts defaultOptions, rfl, ⟨rfl, rfl, rfl, rfl, rfl, rfl, rfl⟩,
    ?_, loadOptions_settings settings field, rfl⟩
  simp [loadOptions, applyOptions_append, applyOptions]

/-- C10: WithSpokenLanguageFull(lang) leaves SpokenLang empty or a two-letter
lowercase ASCII code and changes no other field; SpokenLang is the code of the
table when lang is one of its keys ("chinese" gives "zh") and the empty string
when lang is no key ("Chinese"), also over a code set by an earlier option. -/
theorem WithSpokenLanguageFull_spec (lang : String) (o : options) :
    ((WithSpokenLanguageFull lang o).SpokenLang = "" ∨
        isTwoLetterCode (WithSpokenLanguageFull lang o).SpokenLang = true) ∧
      (WithSpokenLanguageFull lang o).GitHubURL = o.GitHubURL ∧
      (WithSpokenLanguageFull lang o).Language = o.Language ∧
      (WithSpokenLanguageFull lang o).DateRange = o.DateRange ∧
      (∀ code, (lang, code) ∈ spokenLangCodeEntries →
        (WithSpokenLanguageFull lang o).SpokenLang = code) ∧
      ((∀ code, (lang, code) ∉ spokenLangCodeEntries) →
        (WithSpokenLanguageFull lang o).SpokenLang = "") ∧
      (WithSpokenLanguageFull "chinese" o).SpokenLang = "zh" ∧
      (WithSpokenLanguageFull "Chinese" o).SpokenLang = "" ∧
      (loadOptions [WithSpokenLanguageCode "zh", WithSpokenLanguageFull "Chinese"]).SpokenLang
        = "" := by
  refine ⟨spokenLangCode_shape lang, rfl, rfl, rfl, ?_, ?_, ?_, ?_, ?_⟩
  · intro code h
    exact spokenLangCode_of_mem lang code h
  · intro h
    exact mapIndex_absent _ _ h
  · exact spokenLangCode_of_mem "chinese" "zh" (by decide)
  · simp only [WithSpokenLanguageFull]
    exact spokenLangCode_Chinese
  · simp only [loadOptions, applyOptions, WithSpokenLanguageFull]
    exact spokenLangCode_Chinese

theorem WithSpokenLanguageFull_spec_witness :
    (WithSpokenLanguageFull "tonga (tonga islands)" defaultOptions).SpokenLang = "to" ∧
      (WithSpokenLanguageFull "klingon" defaultOptions).SpokenLang = "" :=
  ⟨(WithSpokenLanguageFull_spec "tonga (tonga islands)" defaultOptions).2.2.2.2.1 "to" (by decide),
   (WithSpokenLanguageFull_spec "klingon" defaultOptions).2.2.2.2.2.1 (fun code h => by
      simpa using List.all_eq_true.mp spokenLangCode_no_klingon ("klingon", code) h)⟩

/-! ## Outcome of a fetch -/

/-- C2: FetchRepos and FetchDevelopers return an error exactly when `http.Get`
or the document reader fails; they then return that error with a nil list, and
otherwise a nil error with a non-nil list, whatever the rows of the document
hold (and `addParts` is never empty, so reading `addParts[0]` cannot fail). -/
theorem Fetch_error_iff (w : World) (t : trending) :
    (((FetchRepos w t).err ≠ none ↔
        ((∃ e, w.Get (reposURL t.opts) = .error e) ∨
          ∃ body e, w.Get (reposURL t.opts) = .ok body ∧
            w.NewDocumentFromReader body = .error e)) ∧
      (∀ e, w.Get (reposURL t.opts) = .error e →
        (FetchRepos w t).list = none ∧ (FetchRepos w t).err = some e) ∧
      (∀ body e, w.Get (reposURL t.opts) = .ok body → w.NewDocumentFromReader body = .error e →
        (FetchRepos w t).list = none ∧ (FetchRepos w t).err = some e) ∧
      (∀ body doc, w.Get (reposURL t.opts) = .ok body → w.NewDocumentFromReader body = .ok doc →
        (FetchRepos w t).err = none ∧ ∃ repos, (FetchRepos w t).list = some repos)) ∧
    (((FetchDevelopers w t).err ≠ none ↔
        ((∃ e, w.Get (developersURL t.opts) = .error e) ∨
          ∃ body e, w.Get (developersURL t.opts) = .ok body ∧
            w.NewDocumentFromReader body = .error e)) ∧
      (∀ e, w.Get (developersURL t.opts) = .error e →
        (FetchDevelopers w t).list = none ∧ (FetchDevelopers w t).err = some e) ∧
      (∀ body e, w.Get (developersURL t.opts) = .ok body →
        w.NewDocumentFromReader body = .error e →
        (FetchDevelopers w t).list = none ∧ (FetchDevelopers w t).err = some e) ∧
      (∀ body doc, w.Get (developersURL t.opts) = .ok body →
        w.NewDocumentFromReader body = .ok doc →
        (FetchDevelopers w t).err = none ∧ ∃ devs, (FetchDevelopers w t).list = some devs)) ∧
    (∀ s : String, SplitN s " " 2 ≠ []) := by
  refine ⟨⟨?_, ?_, ?_, ?_⟩, ⟨?_, ?_, ?_, ?_⟩, ?_⟩
  · cases hg : w.Get (reposURL t.opts) with
    | error e =>
      have h := FetchRepos_get_error w t e hg
      simp [h.2]
    | ok body =>
      cases hp : w.NewDocumentFromReader body with
      | error e =>
        have h := FetchRepos_parse_error w t body e hg hp
        simp [h.2, hp]
      | ok doc =>
        have h := FetchRepos_ok w t body doc hg hp
        simp [h.2, hp]
  · exact fun e h => FetchRepos_get_error w t e h
  · exact fun body e h hp => FetchRepos_parse_error w t body e h hp
  · intro body doc h hp
    exact ⟨(FetchRepos_ok w t body doc h hp).2, _, (FetchRepos_ok w t body doc h hp).1⟩
  · cases hg : w.Get (developersURL t.opts) with
    | error e =>
      have h := FetchDevelopers_get_error w t e hg
      simp [h.2]
    | ok body =>
      cases hp : w.NewDocumentFromReader body with
      | error e =>
        have h := FetchDevelopers_parse_error w t body e hg hp
        simp [h.2, hp]
      | ok doc =>
        have h := FetchDevelopers_ok w t body doc hg hp
        simp [h.2, hp]
  · exact fun e h => FetchDevelopers_get_error w t e h
  · exact fun body e h hp => FetchDevelopers_parse_error w t body e h hp
  · intro body doc h hp
    exact ⟨(FetchDevelopers_ok w t body doc h hp).2, _, (FetchDevelopers_ok w t body doc h hp).1⟩
  · intro s
    simp [SplitN, splitNChars_ne_nil]

theorem Fetch_error_iff_witness :
    ((FetchRepos offlineWorld (New [])).list = none ∧
        (FetchRepos offlineWorld (New [])).err = some ⟨"no such host"⟩) ∧
      ((FetchDevelopers brokenBodyWorld (New [])).list = none ∧
        (FetchDevelopers brokenBodyWorld (New [])).err = some ⟨"unexpected EOF"⟩) ∧
      ((FetchRepos exampleWorld (New [])).err = none ∧
        ∃ repos, (FetchRepos exampleWorld (New [])).list = some repos) :=
  ⟨(Fetch_error_iff offlineWorld (New [])).1.2.1 ⟨"no such host"⟩ rfl,
   (Fetch_error_iff brokenBodyWorld (New [])).2.1.2.2.1 "" ⟨"unexpected EOF"⟩ rfl rfl,
   (Fetch_error_iff exampleWorld (New [])).1.2.2.2 "<html>" exampleDocument rfl rfl⟩

/-- C6: on success the list FetchRepos (FetchDevelopers) returns holds one
record per row that `.Box .Box-row` matches, in document order: the rows are the
elements of the document that the selector matches, each once and in document
order; the list is as long as the list of rows, its i-th record is the record
built from the i-th row alone, and it is empty when no row matches. -/
theorem Fetch_one_record_per_row (w : World) (t : trending) (body : String) (doc : Node)
    (hdoc : w.NewDocumentFromReader body = .ok doc) :
    ((documentSelection doc).Find selBoxRow =
        (documentDescendants doc).filter (fun r => selBoxRow.Match r.node r.ancestors) ∧
      ((documentSelection doc).Find selBoxRow).Pairwise
        (fun r s => docBefore r.path s.path = true)) ∧
    (w.Get (reposURL t.opts) = .ok body →
      ∃ repos, (FetchRepos w t).list = some repos ∧
        repos.length = ((documentSelection doc).Find selBoxRow).length ∧
        (∀ (i : Nat) (row : NodeRef), ((documentSelection doc).Find selBoxRow)[i]? = some row →
          repos[i]? = some (repoOfRow w.IntSize t.opts [row])) ∧
        ((documentSelection doc).Find selBoxRow = [] → repos = [])) ∧
    (w.Get (developersURL t.opts) = .ok body →
      ∃ devs, (FetchDevelopers w t).list = some devs ∧
        devs.length = ((documentSelection doc).Find selBoxRow).length ∧
        (∀ (i : Nat) (row : NodeRef), ((documentSelection doc).Find selBoxRow)[i]? = some row →
          devs[i]? = some (developerOfRow [row])) ∧
        ((documentSelection doc).Find selBoxRow = [] → devs = [])) := by
  refine ⟨⟨Find_document doc selBoxRow, ?_⟩, ?_, ?_⟩
  · rw [Find_document]
    exact List.Pairwise.sublist (List.filter_sublist _) (documentDescendants_sorted doc)
  · intro hget
    refine ⟨_, (FetchRepos_ok w t body doc hget hdoc).1, by simp, ?_, ?_⟩
    · intro i row hrow
      simp [hrow]
    · intro h
      simp [h]
  · intro hget
    refine ⟨_, (FetchDevelopers_ok w t body doc hget hdoc).1, by simp, ?_, ?_⟩
    · intro i row hrow
      simp [hrow]
    · intro h
      simp [h]

theorem Fetch_one_record_per_row_witness :
    (∃ repos, (FetchRepos exampleWorld (New [])).list = some repos ∧ repos.length = 3 ∧
        repos[1]? = some (repoOfRow 64 defaultOptions
          [⟨[0, 1, 0, 1], [elem "div" [⟨"class", "Box"⟩]
              [exampleRow, exampleRowNoLang, exampleRowEmpty],
            elem "body" [] [elem "div" [⟨"class", "Box"⟩]
              [exampleRow, exampleRowNoLang, exampleRowEmpty]],
            elem "html" [] [elem "head" [] [], elem "body" [] [elem "div" [⟨"class", "Box"⟩]
              [exampleRow, exampleRowNoLang, exampleRowEmpty]]],
            exampleDocument], exampleRowNoLang⟩])) ∧
      (∃ devs, (FetchDevelopers exampleWorld (New [])).list = some devs ∧ devs.length = 3) := by
  have h := Fetch_one_record_per_row exampleWorld (New []) "<html>" exampleDocument rfl
  obtain ⟨repos, h1, h2, h3, _⟩ := h.2.1 rfl
  obtain ⟨devs, d1, d2, _⟩ := h.2.2 rfl
  exact ⟨⟨repos, h1, h2.trans (by decide), h3 1 _ rfl⟩, ⟨devs, d1, d2.trans (by decide)⟩⟩

/-! ## Stars, Forks and Add -/

/-- C4 (amended): Stars is read from the second-to-last element matched by
`div>a` and Forks from the last one, each as the integer of the trimmed text
with every comma removed; for every natural number below 2^(intSize-1) (the
range of `int`) written in decimal with or without separator commas and with
white space around it, the field is that number. -/
theorem Stars_Forks_numeral (intSize : Nat) (hsz : intSize = 32 ∨ intSize = 64)
    (opts : options) (row : NodeRef) (pre t post : List Char)
    (hpre : isBlank pre = true) (hpost : isBlank post = true) (ht : isNumeral t = true)
    (hfit : numeralValue t < 2 ^ (intSize - 1)) :
    (repoOfRow intSize opts [row]).Stars =
        (Atoi intSize (countText (textOf (secondToLast (Selection.Find [row] selDivA))))).1 ∧
      (repoOfRow intSize opts [row]).Forks =
        (Atoi intSize (countText (textOf (lastOf (Selection.Find [row] selDivA))))).1 ∧
      (textOf (secondToLast (Selection.Find [row] selDivA)) = String.mk (pre ++ t ++ post) →
        (repoOfRow intSize opts [row]).Stars = (numeralValue t : Int)) ∧
      (textOf (lastOf (Selection.Find [row] selDivA)) = String.mk (pre ++ t ++ post) →
        (repoOfRow intSize opts [row]).Forks = (numeralValue t : Int)) := by
  refine ⟨repoOfRow_Stars intSize opts row, repoOfRow_Forks intSize opts row, ?_, ?_⟩
  · intro htext
    rw [repoOfRow_Stars, starsSource, htext]
    exact Atoi_countText_numeral intSize hsz pre t post hpre hpost ht hfit
  · intro htext
    rw [repoOfRow_Forks, forksSource, htext]
    exact Atoi_countText_numeral intSize hsz pre t post hpre hpost ht hfit

theorem Stars_Forks_numeral_witness :
    (repoOfRow 64 defaultOptions [rootRef exampleRow]).Stars = 12345 ∧
      (repoOfRow 64 defaultOptions [rootRef exampleRow]).Forks = 678 :=
  ⟨(Stars_Forks_numeral 64 (Or.inr rfl) defaultOptions (rootRef exampleRow)
      [' '] ['1', '2', ',', '3', '4', '5'] ['\n'] (by decide) (by decide) (by decide)
      (by decide)).2.2.1 (by decide),
   (Stars_Forks_numeral 64 (Or.inr rfl) defaultOptions (rootRef exampleRow)
      [' '] ['6', '7', '8'] ['\n'] (by decide) (by decide) (by decide)
      (by decide)).2.2.2 (by decide)⟩

/-- C4 as stated fails: on a 64-bit platform a row whose second-to-last
`div>a` element reads " 9,223,372,036,854,775,808\n" (the numeral of 2^63) gets
Stars = 2^63 - 1, not 2^63. -/
theorem Stars_numeral_counterexample :
    ¬ (∀ (row : NodeRef) (pre t post : List Char), isBlank pre = true → isBlank post = true →
        isNumeral t = true →
        textOf (secondToLast (Selection.Find [row] selDivA)) = String.mk (pre ++ t ++ post) →
        (repoOfRow 64 defaultOptions [row]).Stars = (numeralValue t : Int)) := by
  intro h
  have h1 := h (rootRef exampleRowHuge) [' '] "9,223,372,036,854,775,808".data ['\n']
    (by decide) (by decide) (by decide) (by decide)
  revert h1
  decide

theorem isMalformed_nil (intSize : Nat) : isMalformed intSize [] :=
  Or.inl rfl

theorem Atoi_overflowing (intSize : Nat) (hsz : intSize = 32 ∨ intSize = 64) (s : String)
    (h : isOverflowing intSize s.data) :
    (Atoi intSize s).1 = ((2 ^ (intSize - 1) : Nat) : Int) - 1 := by
  rw [Atoi_digits intSize hsz s h.1 h.2.1, if_neg (Nat.not_lt.mpr h.2.2)]

/-- C3 (amended): each numeric field (Stars, Forks, Add) is 0 when its element
is missing, when its source text is empty, and when the source text is seen to
be no decimal integer (an optional sign, then nothing, or digits of value at
most 2^intSize - 1 followed by a character that is no digit); a source text of
digits that denotes a value outside `int` gives the largest `int`,
2^(intSize-1) - 1, not 0. -/
theorem numeric_fields_on_failure (intSize : Nat) (hsz : intSize = 32 ∨ intSize = 64)
    (opts : options) (row : NodeRef) :
    ((isMalformed intSize (starsSource row).data → (repoOfRow intSize opts [row]).Stars = 0) ∧
      (isMalformed intSize (forksSource row).data → (repoOfRow intSize opts [row]).Forks = 0) ∧
      (isMalformed intSize (addSource row).data → (repoOfRow intSize opts [row]).Add = 0)) ∧
    ((secondToLast (Selection.Find [row] selDivA) = none →
        (repoOfRow intSize opts [row]).Stars = 0) ∧
      (lastOf (Selection.Find [row] selDivA) = none →
        (repoOfRow intSize opts [row]).Forks = 0) ∧
      (addSpan row = none → (repoOfRow intSize opts [row]).Add = 0)) ∧
    ((isOverflowing intSize (starsSource row).data →
        (repoOfRow intSize opts [row]).Stars = ((2 ^ (intSize - 1) : Nat) : Int) - 1) ∧
      (isOverflowing intSize (forksSource row).data →
        (repoOfRow intSize opts [row]).Forks = ((2 ^ (intSize - 1) : Nat) : Int) - 1) ∧
      (isOverflowing intSize (addSource row).data →
        (repoOfRow intSize opts [row]).Add = ((2 ^ (intSize - 1) : Nat) : Int) - 1)) := by
  refine ⟨⟨?_, ?_, ?_⟩, ⟨?_, ?_, ?_⟩, ⟨?_, ?_, ?_⟩⟩
  · intro h
    rw [repoOfRow_Stars, Atoi_malformed intSize hsz _ h]
  · intro h
    rw [repoOfRow_Forks, Atoi_malformed intSize hsz _ h]
  · intro h
    rw [repoOfRow_Add, Atoi_malformed intSize hsz _ h]
  · intro h
    rw [repoOfRow_Stars, starsSource, h]
    exact congrArg Prod.fst (Atoi_malformed intSize hsz _ (isMalformed_nil intSize))
  · intro h
    rw [repoOfRow_Forks, forksSource, h]
    exact congrArg Prod.fst (Atoi_malformed intSize hsz _ (isMalformed_nil intSize))
  · intro h
    rw [repoOfRow_Add, addSource, h]
    exact congrArg Prod.fst (Atoi_malformed intSize hsz _ (isMalformed_nil intSize))
  · intro h
    rw [repoOfRow_Stars, Atoi_overflowing intSize hsz _ h]
  · intro h
    rw [repoOfRow_Forks, Atoi_overflowing intSize hsz _ h]
  · intro h
    rw [repoOfRow_Add, Atoi_overflowing intSize hsz _ h]

theorem numeric_fields_on_failure_witness :
    (repoOfRow 64 defaultOptions [rootRef exampleRowAbbreviated]).Stars = 0 ∧
      (repoOfRow 64 defaultOptions [rootRef exampleRowAbbreviated]).Forks = 0 ∧
      (repoOfRow 64 defaultOptions [rootRef exampleRowThousand]).Add = 0 ∧
      (repoOfRow 64 defaultOptions [rootRef exampleRowEmpty]).Stars = 0 ∧
      (repoOfRow 64 defaultOptions [rootRef exampleRowEmpty]).Forks = 0 ∧
      (repoOfRow 64 defaultOptions [rootRef exampleRowEmpty]).Add = 0 ∧
      (repoOfRow 64 defaultOptions [rootRef exampleRowHuge]).Forks = 9223372036854775807 :=
  ⟨(numeric_fields_on_failure 64 (Or.inr rfl) defaultOptions (rootRef exampleRowAbbreviated)).1.1
      (Or.inr ⟨['1'], '.', ['2', 'k'], by decide, by decide, by decide, by decide⟩),
   (numeric_fields_on_failure 64 (Or.inr rfl) defaultOptions (rootRef exampleRowAbbreviated)).1.2.1
      (Or.inl (by decide)),
   (numeric_fields_on_failure 64 (Or.inr rfl) defaultOptions (rootRef exampleRowThousand)).1.2.2
      (Or.inr ⟨['1'], ',', ['2', '3', '4'], by decide, by decide, by decide, by decide⟩),
   (numeric_fields_on_failure 64 (Or.inr rfl) defaultOptions (rootRef exampleRowEmpty)).2.1.1
      rfl,
   (numeric_fields_on_failure 64 (Or.inr rfl) defaultOptions (rootRef exampleRowEmpty)).2.1.2.1
      rfl,
   (numeric_fields_on_failure 64 (Or.inr rfl) defaultOptions (rootRef exampleRowEmpty)).2.1.2.2
      rfl,
   (numeric_fields_on_failure 64 (Or.inr rfl) defaultOptions (rootRef exampleRowHuge)).2.2.2.1
      ⟨by decide, by decide, by decide⟩⟩

/-- C3 as stated fails: on a 64-bit platform a row whose last `div>a` element
reads "99999999999999999999", a value that does not fit in `int`, gets
Forks = 2^63 - 1, not the zero value; and a row whose second-to-last `div>a`
element reads " 18,446,744,073,709,551,616+ ", which is no decimal integer, gets
Stars = 2^63 - 1 as well. -/
theorem Forks_overflow_counterexample :
    ¬ (∀ row : NodeRef, isOverflowing 64 (forksSource row).data →
          (repoOfRow 64 defaultOptions [row]).Forks = 0) ∧
      ¬ (∀ row : NodeRef, isDecimalInteger (starsSource row).data = false →
          (repoOfRow 64 defaultOptions [row]).Stars = 0) ∧
      (repoOfRow 64 defaultOptions [rootRef exampleRowHuge]).Forks = 9223372036854775807 ∧
      (repoOfRow 64 defaultOptions [rootRef exampleRowHugePlus]).Stars = 9223372036854775807 := by
  refine ⟨?_, ?_, by decide, by decide⟩
  · intro h
    have h1 := h (rootRef exampleRowHuge) ⟨by decide, by decide, by decide⟩
    revert h1
    decide
  · intro h
    have h1 := h (rootRef exampleRowHugePlus) (by decide)
    revert h1
    decide

theorem takeWhile_before_space (ds suffix : List Char)
    (hds : ∀ d ∈ ds, isDecimalDigit d = true) :
    (ds ++ ' ' :: suffix).takeWhile (fun c => c != ' ') = ds := by
  induction ds with
  | nil => simp
  | cons c rest ih =>
    have hc : c ≠ ' ' := by
      intro e
      subst e
      have := hds ' ' (by simp)
      revert this
      decide
    simp only [List.cons_append, List.takeWhile_cons]
    have h2 : (c != ' ') = true := by simpa using hc
    rw [h2, if_pos rfl, ih (fun d hd => hds d (List.mem_cons_of_mem _ hd))]

/-- The part of C7 the code does: a count of the day written in plain decimal
digits, below 2^(intSize-1) and followed by a space, is read as its value. -/
theorem Add_plain_digits (intSize : Nat) (hsz : intSize = 32 ∨ intSize = 64) (opts : options)
    (row : NodeRef) (ds suffix : List Char) (hne : ds ≠ [])
    (hds : ∀ d ∈ ds, isDecimalDigit d = true) (hfit : decimalValue ds < 2 ^ (intSize - 1))
    (htext : (TrimSpace (textOf (addSpan row))).data = ds ++ ' ' :: suffix) :
    (repoOfRow intSize opts [row]).Add = (decimalValue ds : Int) := by
  rw [repoOfRow_Add, addSource, firstField, htext, takeWhile_before_space ds suffix hds,
    Atoi_digits intSize hsz _ hne hds]
  show (if decimalValue ds < 2 ^ (intSize - 1) then ((decimalValue ds : Int), none)
      else (((2 ^ (intSize - 1) : Nat) : Int) - 1, some NumError.ErrRange)).1 = _
  rw [if_pos hfit]

/-- C7 (the code as it is): the count of the day is parsed without removing
commas, unlike Stars and Forks. A row whose add span reads
"1,234 stars today" gets Add = 0, while the same numeral "1,234" in its star
link gives Stars = 1234. -/
theorem Add_keeps_commas :
    addSource (rootRef exampleRowThousand) = "1,234" ∧
      (repoOfRow 64 defaultOptions [rootRef exampleRowThousand]).Add = 0 ∧
      starsSource (rootRef exampleRowThousand) = "1234" ∧
      (repoOfRow 64 defaultOptions [rootRef exampleRowThousand]).Stars = 1234 := by
  decide

/-! ## Language, contributors and the span positions -/

/-- C8: with n the number of elements `div>span` matches in a row: if n = 2,
Lang is "unknown", BuiltBy is read from the span at index 0 and Add from the
span at index 1; for every other n, Lang is the trimmed text of the span at
index 0 (the empty string when there is none), BuiltBy is read from the span at
index 1 and Add from the span at index 2. BuiltBy lists, in document order, the
`src` attributes of the `a>img` elements under its span. -/
theorem spans_by_count (intSize : Nat) (opts : options) (row : NodeRef) :
    ((Selection.Find [row] selDivSpan).length = 2 →
      (repoOfRow intSize opts [row]).Lang = "unknown" ∧
        (repoOfRow intSize opts [row]).BuiltBy =
          imageSources (Selection.Find [row] selDivSpan)[0]? ∧
        (repoOfRow intSize opts [row]).Add =
          addCount intSize (textOf (Selection.Find [row] selDivSpan)[1]?)) ∧
    ((Selection.Find [row] selDivSpan).length ≠ 2 →
      (repoOfRow intSize opts [row]).Lang =
          TrimSpace (textOf (Selection.Find [row] selDivSpan)[0]?) ∧
        (repoOfRow intSize opts [row]).BuiltBy =
          imageSources (Selection.Find [row] selDivSpan)[1]? ∧
        (repoOfRow intSize opts [row]).Add =
          addCount intSize (textOf (Selection.Find [row] selDivSpan)[2]?)) ∧
    ((Selection.Find [row] selDivSpan).length = 0 → (repoOfRow intSize opts [row]).Lang = "") := by
  refine ⟨?_, ?_, ?_⟩
  · intro h
    have := repoOfRow_two_spans intSize opts row h
    exact ⟨this.1, this.2.2, this.2.1⟩
  · intro h
    have := repoOfRow_other_spans intSize opts row h
    exact ⟨this.1, this.2.2, this.2.1⟩
  · intro h
    have h2 : (Selection.Find [row] selDivSpan).length ≠ 2 := by omega
    rw [(repoOfRow_other_spans intSize opts row h2).1,
      List.getElem?_eq_none (by omega)]
    decide

theorem spans_by_count_witness :
    ((repoOfRow 64 defaultOptions [rootRef exampleRowNoLang]).Lang = "unknown" ∧
        (repoOfRow 64 defaultOptions [rootRef exampleRowNoLang]).BuiltBy = ["u3.png"] ∧
        (repoOfRow 64 defaultOptions [rootRef exampleRowNoLang]).Add = 2) ∧
      ((repoOfRow 64 defaultOptions [rootRef exampleRow]).Lang = "Go" ∧
        (repoOfRow 64 defaultOptions [rootRef exampleRow]).BuiltBy = ["u1.png", "u2.png"] ∧
        (repoOfRow 64 defaultOptions [rootRef exampleRow]).Add = 321) ∧
      (repoOfRow 64 defaultOptions [rootRef exampleRowEmpty]).Lang = "" := by
  have h2 := (spans_by_count 64 defaultOptions (rootRef exampleRowNoLang)).1 (by decide)
  have h3 := (spans_by_count 64 defaultOptions (rootRef exampleRow)).2.1 (by decide)
  have h0 := (spans_by_count 64 defaultOptions (rootRef exampleRowEmpty)).2.2 (by decide)
  refine ⟨⟨h2.1, h2.2.1.trans (by decide), h2.2.2.trans (by decide)⟩,
    ⟨h3.1.trans (by decide), h3.2.1.trans (by decide), h3.2.2.trans (by decide)⟩, h0⟩

end ghtrending
